import Mathlib

set_option maxRecDepth 8000

/-!
Verification of the natural-language specification of the vertexai-exp
natural-language-to-SQL pipeline against a shallow embedding of its
Python sources.

Strings are modelled as `List Char`; every Python string operation used
by the code (`in`, `split(pat, 1)`, `split(ch)`, `replace`, `strip`,
`startswith`, `endswith`, `join`) is embedded as an executable function
on `List Char`.  Dictionaries are modelled as insertion-ordered
association lists, matching CPython semantics.  External collaborators
(search backend, language model, warehouse, filesystem, clock) are
oracle parameters; the two cache tiers are explicit state.
-/

/-- Coerces a Lean string literal to the `List Char` representation used
throughout the development. -/
def chars (s : String) : List Char := s.data

/-- Whitespace test matching Python `str.strip` / `str.isspace` for the
ASCII whitespace characters. -/
def isSpace (c : Char) : Bool :=
  c = ' ' || c = '\t' || c = '\n' || c = '\r' || c = '\x0b' || c = '\x0c'

/-- Embeds Python `s.strip()`: removes leading and trailing whitespace. -/
def strip (l : List Char) : List Char :=
  ((l.dropWhile isSpace).reverse.dropWhile isSpace).reverse

/-- Embeds Python `s.split(pat, 1)`: `some (before, after)` splits at the
first occurrence of `pat`, `none` means `pat` does not occur. -/
def splitOnFirst (pat : List Char) : List Char → Option (List Char × List Char)
  | [] => if pat.isPrefixOf [] then some ([], []) else none
  | c :: rest =>
    if pat.isPrefixOf (c :: rest) then some ([], (c :: rest).drop pat.length)
    else (splitOnFirst pat rest).map fun p => (c :: p.1, p.2)

/-- Embeds the Python substring test `pat in s`. -/
def containsSub (pat s : List Char) : Bool := (splitOnFirst pat s).isSome

/-- Fuel-indexed worker for `replaceAll`; the fuel is only there to make
the recursion structural (it never runs out when it starts at the input
length, because a non-empty matched pattern consumes at least one
character). -/
def replaceAllGo (pat rep : List Char) : Nat → List Char → List Char
  | 0, s => s
  | _ + 1, [] => []
  | fuel + 1, c :: rest =>
    if pat ≠ [] ∧ pat.isPrefixOf (c :: rest) = true then
      rep ++ replaceAllGo pat rep fuel ((c :: rest).drop pat.length)
    else
      c :: replaceAllGo pat rep fuel rest

/-- Embeds Python `s.replace(pat, rep)` for a non-empty pattern:
left-to-right non-overlapping replacement of every occurrence. -/
def replaceAll (pat rep : List Char) (s : List Char) : List Char :=
  replaceAllGo pat rep s.length s

/-- Embeds Python `s.split(sep)` for a single-character separator. -/
def splitChar (sep : Char) : List Char → List (List Char)
  | [] => [[]]
  | c :: rest =>
    if c = sep then [] :: splitChar sep rest
    else
      match splitChar sep rest with
      | [] => [[c]]
      | h :: t => (c :: h) :: t

/-- Embeds Python `sep.join(parts)` for a single-character separator. -/
def joinSep (sep : Char) : List (List Char) → List Char
  | [] => []
  | [l] => l
  | l :: ls => l ++ sep :: joinSep sep ls

/-- Embeds Python `s.endswith(c)` for a single character. -/
def endsWithChar (c : Char) (l : List Char) : Bool :=
  match l.getLast? with
  | some x => x = c
  | none => false

/-!
Table Info Parser (`src/agent_search_from_engine.py`, `format_content`).
The parser first strips the `<b>`/`</b>` tags and a trailing period, then
splits the blob at fixed marker substrings to fill a `sections`
dictionary, and finally renders the sections into a fixed-shape block.
-/

/-- Sections dictionary built by `format_content` (its `sections` local). -/
structure Sections where
  tableId : List Char
  description : List Char
  category : List Char
  schema : List (List Char)
  startTime : List Char
  endTime : List Char
deriving DecidableEq, Repr

/-- Embeds the tag-stripping preamble of `format_content`: removes
`<b>` and `</b>` and one trailing period. -/
def cleanContent (content : List Char) : List Char :=
  let c := replaceAll (chars "<b>") [] content
  let c := replaceAll (chars "</b>") [] c
  if endsWithChar '.' c then c.dropLast else c

/-- Embeds the schema-entry loop of `format_content`: split the schema
text on `-` and keep the stripped pieces mentioning both `name:` and
`type:`. -/
def schemaEntriesOf (schemaText : List Char) : List (List Char) :=
  (splitChar '-' schemaText).filterMap fun line =>
    if containsSub (chars "name:") line && containsSub (chars "type:") line then
      let entry := strip line
      if entry.isEmpty then none else some entry
    else none

/-- Embeds the `start_time:` / `end_time:` parsing of `format_content`,
including the cleanup of a trailing `-` on the start time. -/
def parseTimes (timeRangeText : List Char) : List Char × List Char :=
  if containsSub (chars "start_time:") timeRangeText then
    match splitOnFirst (chars "start_time:") timeRangeText with
    | some (_, rem) =>
      let remaining := strip rem
      if containsSub (chars "end_time:") remaining then
        match splitOnFirst (chars "end_time:") remaining with
        | some (a, b) =>
          let startTime := strip a
          let startTime := if endsWithChar '-' startTime then strip startTime.dropLast else startTime
          (startTime, strip b)
        | none => ([], [])
      else ([], [])
    | none => ([], [])
  else ([], [])

/-- Embeds the `tableId:` block of `format_content`: when the marker is
present, split at `description:`, erase the `tableId:` text from the
head part, and continue with the stripped tail.  Returns the parsed
table id together with the remaining working content. -/
def parseTableIdPhase (content : List Char) : List Char × List Char :=
  if containsSub (chars "tableId:") content then
    match splitOnFirst (chars "description:") content with
    | some (a, b) => (strip (replaceAll (chars "tableId:") [] a), strip b)
    | none => ([], content)
  else ([], content)

/-- Embeds the `category:`/`schema:`/`time_range:` cascade of
`format_content` on the working content left by the `tableId:` block. -/
def parseBodyPhase (tid content : List Char) : Sections :=
  if containsSub (chars "category:") content then
    match splitOnFirst (chars "category:") content with
    | some (descPart, rest) =>
      let desc := strip descPart
      let content := strip rest
      match splitOnFirst (chars "schema:") content with
      | some (catPart, schemaRest) =>
        let cat := strip catPart
        let schemaContent := strip schemaRest
        if containsSub (chars "time_range:") schemaContent then
          match splitOnFirst (chars "time_range:") schemaContent with
          | some (schPart, trPart) =>
            let entries := schemaEntriesOf (strip schPart)
            let (st, et) := parseTimes (strip trPart)
            ⟨tid, desc, cat, entries, st, et⟩
          | none => ⟨tid, desc, cat, [], [], []⟩
        else ⟨tid, desc, cat, [], [], []⟩
      | none => ⟨tid, desc, [], [], [], []⟩
    | none => ⟨tid, [], [], [], [], []⟩
  else ⟨tid, [], [], [], [], []⟩

/-- Embeds the parsing phase of `format_content`: fills the `sections`
dictionary by linear splits at the fixed marker substrings. -/
def parseSections (raw : List Char) : Sections :=
  let content := cleanContent raw
  let (tid, content) := parseTableIdPhase content
  parseBodyPhase tid content

/-- Embeds the rendering phase of `format_content`: joins the fixed-order
header lines with newlines. -/
def render (s : Sections) : List Char :=
  joinSep '\n'
    ([chars "tableId: " ++ s.tableId,
      chars "category: " ++ s.category,
      chars "description: " ++ s.description,
      chars "schema:"] ++
     s.schema.map (fun e => chars "  - " ++ e) ++
     [chars "time_range:",
      chars "  - start_time: " ++ s.startTime,
      chars "  - end_time: " ++ s.endTime])

/-- Embeds `format_content` itself: parse, then render. -/
def formatContent (content : List Char) : List Char :=
  render (parseSections content)

/-!
SQL cleaning (`_clean_sql_query`, identical in
`src/sql_query_generator_tester.py` and `src/query_generator.py`).
-/

/-- Embeds `_clean_sql_query`: drop the markdown fences, drop the lines
whose stripped form starts with `#`, and strip the joined result. -/
def cleanSqlQuery (query : List Char) : List Char :=
  let q := replaceAll (chars "```sql") [] query
  let q := replaceAll (chars "```") [] q
  let lines := splitChar '\n' q
  let cleanedLines := lines.filter fun line => !(chars "#").isPrefixOf (strip line)
  strip (joinSep '\n' cleanedLines)

/-!
Search results and prompt builders.  `SearchResult` models the
`{table_name, content}` dictionaries produced by `search_sample`;
the prompt builders embed `_create_table_selection_prompt`
(`src/sql_query_generator_tester.py`, textually identical to
`TableSelector._create_prompt` in `src/table_selector.py`) and
`_create_query_prompt` (`src/sql_query_generator_tester.py`, textually
identical to `QueryGenerator._create_prompt`).
-/

/-- Search result record `{table_name, content}`. -/
structure SearchResult where
  tableName : List Char
  content : List Char
deriving DecidableEq, Repr

/-- Embeds the table-selection prompt: fixed Japanese instructions with
every candidate's content appended verbatim. -/
def createTableSelectionPrompt (question : List Char) (results : List SearchResult) : List Char :=
  chars "\n質問: " ++ question ++
    chars "\n\n以下の検索結果の中から、質問に最も関連性の高いテーブルのtableIdを1つ選んでください。\n回答は tableId の名称の文字列のみを返してください。理由や説明は一切不要です。\n\n検索結果:\n" ++
    (results.map fun r => chars "\n" ++ r.content ++ chars "\n---").flatten

/-- Embeds the SQL-generation prompt: fixed Japanese instructions with
the question and the selected table's info embedded verbatim. -/
def createQueryPrompt (question tableInfo : List Char) : List Char :=
  chars "\nあなたはSQLクエリを生成する専門家です。\n以下の情報を基に、ユーザーの質問に答えるために必要なSQLクエリを生成して下さい。\n\nユーザーの質問:\n" ++
    question ++
    chars "\n\n対象テーブルの情報:\n" ++
    tableInfo ++
    chars "\n\n以下の要件に従ってSQLクエリを生成して下さい:\n1. SELECT句には質問に関連するカラムのみを含める。\n2. 回答には生のSQLクエリのみを含める。(説明や理由は一切不要です)\n3. クエリは簡潔で効率的なものにする。\n4. 必要に応じてWHERE句やJOIN句を使用する。\n5. 集計が必要な場合はGROUP BY句を使用する。\n\nSQLクエリ:\n"

/-- Embeds `_get_table_info` (`src/query_processor.py` and
`src/sql_query_generator_tester.py`): linear scan for the first result
whose content contains the substring `tableId: {id}`. -/
def getTableInfo (results : List SearchResult) (tableId : List Char) : Option (List Char) :=
  match results with
  | [] => none
  | r :: rest =>
    if containsSub (chars "tableId: " ++ tableId) r.content then some r.content
    else getTableInfo rest tableId

/-!
Python values and insertion-ordered dictionaries.  The JSON values
flowing through this pipeline are stratified: query-result rows map
column names to primitive cell values, and processing-result records map
field names to primitives, row lists or search-result lists.  Records
are association lists whose update follows CPython dict semantics
(replace in place, append new keys).
-/

/-- Primitive cell value of a query-result row.  Numbers are exact
rationals standing for the Python floats. -/
inductive CellVal where
  | cs : List Char → CellVal
  | cq : ℚ → CellVal
  | cb : Bool → CellVal
  | cnull : CellVal
deriving DecidableEq, Repr

/-- One query-result row: an ordered dict of column name to cell. -/
abbrev Row : Type := List (List Char × CellVal)

/-- Field value of a processing-result record. -/
inductive FieldVal where
  | fs : List Char → FieldVal
  | fb : Bool → FieldVal
  | fq : ℚ → FieldVal
  | fnull : FieldVal
  | frows : List Row → FieldVal
  | fresults : List SearchResult → FieldVal
deriving DecidableEq

/-- One processing-result record (a Python dict). -/
abbrev Record : Type := List (List Char × FieldVal)

/-- Record field lookup (Python `k in d` / `d[k]`). -/
def alook (k : List Char) : Record → Option FieldVal
  | [] => none
  | (k', v) :: rest => if k' = k then some v else alook k rest

/-- Record field update `d[k] = v`: CPython dicts replace an existing
key in place and append a fresh key at the end. -/
def aset (k : List Char) (v : FieldVal) : Record → Record
  | [] => [(k, v)]
  | (k', v') :: rest => if k' = k then (k, v) :: rest else (k', v') :: aset k v rest

/-- Python `d.update(kvs)`: apply `aset` for each key/value pair in order. -/
def aupdate (d kvs : Record) : Record :=
  kvs.foldl (fun acc kv => aset kv.1 kv.2 acc) d

/-- Row cell lookup. -/
def rlook (k : List Char) : Row → Option CellVal
  | [] => none
  | (k', v) :: rest => if k' = k then some v else rlook k rest

/-- Lookup in a string-keyed cache tier with values of any type. -/
def clook {α : Type} (k : List Char) : List (List Char × α) → Option α
  | [] => none
  | (k', v) :: rest => if k' = k then some v else clook k rest

/-- Update of a string-keyed cache tier (CPython dict semantics). -/
def cset {α : Type} (k : List Char) (v : α) : List (List Char × α) → List (List Char × α)
  | [] => [(k, v)]
  | (k', v') :: rest => if k' = k then (k, v) :: rest else (k', v') :: cset k v rest

/-!
DataAnalyzer (`src/functions.py`).  `detect_outliers` builds a pandas
z-score `|x - mean| / std` with the pandas default sample standard
deviation (`ddof = 1`) and keeps the rows whose score strictly exceeds
the threshold.  To stay in exact rational arithmetic the embedding
compares squares: for a nonnegative threshold `t`,
`|x - mean| / sqrt(var) > t  ↔  (x - mean)^2 > t^2 * var` whenever
`var > 0`, and both sides agree with the float semantics when
`var = 0` (`NaN`/`inf` comparisons) as well.  Rows in which the column
is absent or non-numeric are skipped, matching pandas `NaN` handling.
-/

/-- Numeric values of one column across the rows, skipping rows where
the column is absent or not a number (pandas `NaN` entries). -/
def colVals (data : List Row) (col : List Char) : List ℚ :=
  data.filterMap fun row =>
    match rlook col row with
    | some (.cq x) => some x
    | _ => none

/-- Pandas `df[col].mean()` over the present numeric entries. -/
def colMean (data : List Row) (col : List Char) : ℚ :=
  let vs := colVals data col
  (vs.foldl (· + ·) 0) / vs.length

/-- Pandas `df[col].std()` squared: the sample variance (`ddof = 1`). -/
def colSampleVar (data : List Row) (col : List Char) : ℚ :=
  let vs := colVals data col
  let m := colMean data col
  ((vs.map fun x => (x - m) ^ 2).foldl (· + ·) 0) / (vs.length - 1 : ℚ)

/-- Whether the column exists in the data frame built from the rows. -/
def hasCol (data : List Row) (col : List Char) : Bool :=
  data.any fun row => (rlook col row).isSome

/-- Embeds `DataAnalyzer.detect_outliers`: return the rows whose z-score
against the column's sample standard deviation strictly exceeds the
threshold (squared comparison, see the section comment). -/
def detectOutliers (data : List Row) (col : List Char) (threshold : ℚ) : List Row :=
  if !hasCol data col then []
  else
    let m := colMean data col
    let v := colSampleVar data col
    data.filter fun row =>
      match rlook col row with
      | some (.cq x) => decide ((x - m) ^ 2 > threshold ^ 2 * v)
      | _ => false

/-- Embeds `DataAnalyzer.get_max_value`: maximum of the column, `None`
(here `FieldVal.fnull`) when the column is missing or empty. -/
def getMaxValue (data : List Row) (col : List Char) : FieldVal :=
  if hasCol data col then
    match (colVals data col).max? with
    | some m => .fq m
    | none => .fnull
  else .fnull

/-- Embeds `DataAnalyzer.get_min_value`. -/
def getMinValue (data : List Row) (col : List Char) : FieldVal :=
  if hasCol data col then
    match (colVals data col).min? with
    | some m => .fq m
    | none => .fnull
  else .fnull

/-- Embeds `DataAnalyzer.get_average_value`. -/
def getAverageValue (data : List Row) (col : List Char) : FieldVal :=
  if hasCol data col then .fq (colMean data col) else .fnull

/-!
Textual rendering helpers.  These embed Python `str()` / `json.dumps`
only far enough to build deterministic prompt strings; the prompts feed
the language-model oracles, so their exact float formatting is
irrelevant to every claim.
-/

/-- Decimal digits of a natural number. -/
def natStr (n : ℕ) : List Char := Nat.toDigits 10 n

/-- Decimal form of an integer. -/
def intStr : ℤ → List Char
  | .ofNat n => natStr n
  | .negSucc n => '-' :: natStr (n + 1)

/-- Deterministic textual form of a rational (approximates the Python
float rendering; oracle input only). -/
def ratStr (x : ℚ) : List Char :=
  if x.den = 1 then intStr x.num else intStr x.num ++ '/' :: natStr x.den

/-- Textual form of a row cell (oracle input only). -/
def cellStr : CellVal → List Char
  | .cs s => chars "\"" ++ s ++ chars "\""
  | .cq x => ratStr x
  | .cb true => chars "true"
  | .cb false => chars "false"
  | .cnull => chars "null"

/-- Textual form of one row (approximates `json.dumps`; oracle input
only). -/
def rowStr (r : Row) : List Char :=
  chars "\x7b" ++
    joinSep ',' (r.map fun kv => chars "\"" ++ kv.1 ++ chars "\": " ++ cellStr kv.2) ++
    chars "\x7d"

/-- Textual form of a row list (approximates `json.dumps`; oracle input
only). -/
def rowsStr (rows : List Row) : List Char :=
  chars "[" ++ joinSep ',' (rows.map rowStr) ++ chars "]"

/-- Textual form of a search-result list (oracle input only). -/
def resultsStr (rs : List SearchResult) : List Char :=
  chars "[" ++ joinSep ',' (rs.map fun r => r.tableName ++ chars ": " ++ r.content) ++ chars "]"

/-- Embeds the Python `str()` of a record field as interpolated into the
final-answer prompt. -/
def pyStr : FieldVal → List Char
  | .fs s => s
  | .fb true => chars "True"
  | .fb false => chars "False"
  | .fq x => ratStr x
  | .fnull => chars "None"
  | .frows rows => rowsStr rows
  | .fresults rs => resultsStr rs

/-- Python `str(d.get(k))` for an optional string value (`None` prints as
`None`). -/
def optStrOrNone : Option (List Char) → List Char
  | some s => s
  | none => chars "None"

/-- Converts an optional string to a record field (`None` becomes null). -/
def optStrVal : Option (List Char) → FieldVal
  | some s => .fs s
  | none => .fnull

/-- Converts an optional bool to a record field (`None` becomes null). -/
def optBoolVal : Option Bool → FieldVal
  | some b => .fb b
  | none => .fnull

/-!
ResultGenerator (`src/result_generator.py`).  The language model, the
warehouse and the plotting library are oracles collected in `RGEnv`; the
two `function_results` cache tiers are explicit arguments.  Timestamps
(`datetime.now().isoformat()`) are an explicit `now` argument.
-/

/-- Structured function-call payload of a model response. -/
structure FunCall where
  name : List Char
  args : List (List Char × List Char)
deriving DecidableEq

/-- Model response: optional function-call part plus text. -/
structure ModelResponse where
  functionCall : Option FunCall
  text : List Char
deriving DecidableEq

/-- Oracles used by `ResultGenerator`: query execution (returns `None`
on any execution error), the two model calls (an `error` is a raised
exception carrying its message), and the two graph generators (external
plotting collaborator, returns the written file path or `None`). -/
structure RGEnv where
  exec : List Char → Option (List Row)
  funModel : List Char → Except (List Char) ModelResponse
  finalModel : List Char → Except (List Char) (List Char)
  genTimeSeries : List Row → Option (List Char) → Option (List Char) → Option (List Char) →
    Option (List Char)
  genBarChart : List Row → Option (List Char) → Option (List Char) → Option (List Char) →
    Option (List Char)

/-- Embeds `_create_function_selection_prompt`: fixed Japanese
instructions embedding the question and the first three data rows. -/
def createFunctionSelectionPrompt (question : List Char) (data : List Row) : List Char :=
  chars "\nあなたは、ユーザーの質問に答えるためのアシスタントです。\n以下の質問に対して、適切な関数を選択して実行し、日本語で回答を生成してください。\n\n質問: " ++
    question ++
    chars "\n\n利用可能なデータ:\n" ++
    rowsStr (data.take 3) ++
    chars "  # 最初の3行のみ表示\n\n以下の関数が利用可能です:\n1. execute_query: SQLクエリを実行してデータを取得\n2. analyze_data: データの統計分析（最大値、最小値、平均値、外れ値検出）\n3. generate_graph: グラフの生成（時系列グラフ、棒グラフ）\n\n質問の内容に応じて、適切な関数を選択し実行してください。\nグラフを生成する場合は、適切なタイトルと軸ラベルを設定してください。\n"

/-- Embeds `_create_final_answer_prompt`: interpolates the executed
function, its result and the output file into fixed Japanese text. -/
def createFinalAnswerPrompt (result : Record) : List Char :=
  chars "\n以下の処理結果に基づいて、ユーザーの質問に対する回答を日本語で生成してください。\n\n実行された関数: " ++
    pyStr ((alook (chars "executed_function") result).getD .fnull) ++
    chars "\n関数の実行結果: " ++
    pyStr ((alook (chars "function_result") result).getD .fnull) ++
    chars "\n出力ファイル: " ++
    pyStr ((alook (chars "output_file") result).getD .fnull) ++
    chars "\n\n回答は以下の点に注意して生成してください：\n1. 数値結果がある場合は、適切な単位を付ける\n2. グラフが生成された場合は、その場所を示す\n3. 結果の解釈や示唆があれば含める\n\n回答:\n"

/-- Embeds `_handle_analysis_function`: dispatch on `analysis_type`,
raising (`error`) on an unknown sub-mode.  A missing `column_name` (the
Python `None`) is never a data-frame column, so the analyzers return
their missing-column results for it. -/
def handleAnalysisFunction (args : List (List Char × List Char)) (data : List Row) :
    Except (List Char) Record :=
  let analysisType := clook (chars "analysis_type") args
  let columnName := clook (chars "column_name") args
  if analysisType = some (chars "max") then
    .ok [(chars "function_result",
          (columnName.map (getMaxValue data)).getD .fnull),
         (chars "output_file", .fnull)]
  else if analysisType = some (chars "min") then
    .ok [(chars "function_result",
          (columnName.map (getMinValue data)).getD .fnull),
         (chars "output_file", .fnull)]
  else if analysisType = some (chars "average") then
    .ok [(chars "function_result",
          (columnName.map (getAverageValue data)).getD .fnull),
         (chars "output_file", .fnull)]
  else if analysisType = some (chars "outliers") then
    .ok [(chars "function_result",
          .frows ((columnName.map fun c => detectOutliers data c 2).getD [])),
         (chars "output_file", .fnull)]
  else
    .error (chars "Unknown analysis type: " ++ optStrOrNone analysisType)

/-- Embeds `_handle_graph_function`: dispatch on `graph_type`, raising
(`error`) on an unknown sub-mode. -/
def handleGraphFunction (env : RGEnv) (args : List (List Char × List Char)) (data : List Row) :
    Except (List Char) Record :=
  let graphType := clook (chars "graph_type") args
  let x := clook (chars "x_column") args
  let y := clook (chars "y_column") args
  let title := clook (chars "title") args
  if graphType = some (chars "time_series") then
    .ok [(chars "function_result", .fnull),
         (chars "output_file", optStrVal (env.genTimeSeries data x y title))]
  else if graphType = some (chars "bar_chart") then
    .ok [(chars "function_result", .fnull),
         (chars "output_file", optStrVal (env.genBarChart data x y title))]
  else
    .error (chars "Unknown graph type: " ++ optStrOrNone graphType)

/-- Initial result skeleton of `_process_function_calls` (its `result`
dict literal). -/
def pfcBase : Record :=
  [(chars "success", .fb true),
   (chars "executed_function", .fnull),
   (chars "function_result", .fnull),
   (chars "output_file", .fnull),
   (chars "final_answer", .fnull)]

/-- Function-call dispatch step of `_process_function_calls`: record the
executed function's name and merge the handler's partial update.  An
unrecognized function name is silently skipped (no `else` in the
source), while a recognized handler may raise on an unknown sub-mode. -/
def pfcDispatch (env : RGEnv) (response : ModelResponse) (queryResult : List Row) :
    Except (List Char) Record :=
  match response.functionCall with
  | some fc =>
    let result := aset (chars "executed_function") (.fs fc.name) pfcBase
    if fc.name = chars "analyze_data" then
      (handleAnalysisFunction fc.args queryResult).map (aupdate result)
    else if fc.name = chars "generate_graph" then
      (handleGraphFunction env fc.args queryResult).map (aupdate result)
    else .ok result
  | none => .ok pfcBase

/-- Final-answer step of `_process_function_calls`: ask the model and
store its text under `final_answer`. -/
def finishWithAnswer (env : RGEnv) (result : Record) : Except (List Char) Record :=
  match env.finalModel (createFinalAnswerPrompt result) with
  | .ok txt => .ok (aset (chars "final_answer") (.fs txt) result)
  | .error e => .error e

/-- Embeds `_process_function_calls`: build the success skeleton,
dispatch a recognized function call, then ask the model for the final
answer.  Any inner exception is re-raised with the
`Error in _process_function_calls:` prefix. -/
def processFunctionCalls (env : RGEnv) (response : ModelResponse) (queryResult : List Row) :
    Except (List Char) Record :=
  match
    (match pfcDispatch env response queryResult with
     | .ok result => finishWithAnswer env result
     | .error e => .error e) with
  | .ok result => .ok result
  | .error e => .error (chars "Error in _process_function_calls: " ++ e)

/-- Parameter names accepted by `QueryLogger.log_query`
(`src/query_logger.py`, its signature). -/
def logQueryParams : List (List Char) :=
  [chars "question", chars "search_results", chars "selected_table",
   chars "generated_sql", chars "expected_table", chars "is_correct"]

/-- Keyword-argument names passed by `ResultGenerator._log_results`
(`src/result_generator.py`). -/
def logResultsKwargNames : List (List Char) :=
  [chars "question", chars "search_results", chars "selected_table",
   chars "generated_sql", chars "expected_table", chars "is_correct",
   chars "executed_function", chars "function_result", chars "final_answer",
   chars "output_file", chars "timestamp"]

/-- Python call binding for keyword arguments: a keyword argument whose
name is not among the accepted parameters raises `TypeError` before the
callee's body runs (CPython additionally quotes the offending name). -/
def bindKwargs (params kwargs : List (List Char)) : Except (List Char) Unit :=
  match kwargs.find? (fun k => !params.contains k) with
  | some k => .error (chars "log_query() got an unexpected keyword argument " ++ k)
  | none => .ok ()

/-- Error record returned by `ResultGenerator.process_question`'s `except`
branch (field order: success, error, question, timestamp). -/
def rgErrorRecord (e q now : List Char) : Record :=
  [(chars "success", .fb false),
   (chars "error", .fs e),
   (chars "question", .fs q),
   (chars "timestamp", .fs now)]

/-- Cache key of the function-result cache:
`f"{question}_{generated_sql}"`. -/
def rgCacheKey (question generatedSql : List Char) : List Char :=
  question ++ '_' :: generatedSql

/-- The record built on `ResultGenerator.process_question`'s success
path: the function-call result updated with the question-level fields
(the `result.update({...})` call). -/
def rgSuccessRecord (res0 : Record) (question : List Char) (searchResults : List SearchResult)
    (selectedTable generatedSql : List Char) (expectedTable : Option (List Char))
    (tsCorrect : Option Bool) (now : List Char) : Record :=
  aupdate res0
    [(chars "question", .fs question),
     (chars "search_results", .fresults searchResults),
     (chars "selected_table", .fs selectedTable),
     (chars "generated_sql", .fs generatedSql),
     (chars "expected_table", optStrVal expectedTable),
     (chars "table_selection_is_correct", optBoolVal tsCorrect),
     (chars "timestamp", .fs now)]

/-- Embeds `ResultGenerator.process_question`.  Returns the result
record, the two updated `function_results` cache tiers, and the number
of underlying query executions performed.  Note the order of the
success path: the caches are written *before* `_log_results` runs, and
`_log_results` always raises `TypeError` (its call passes keyword
arguments `log_query` does not accept), so the per-question `except`
branch turns an already-cached success into a returned error record. -/
def rgProcessQuestion (env : RGEnv) (question : List Char) (searchResults : List SearchResult)
    (selectedTable generatedSql : List Char) (expectedTable : Option (List Char))
    (tsCorrect : Option Bool) (now : List Char) (mem fileC : List (List Char × Record)) :
    Record × List (List Char × Record) × List (List Char × Record) × ℕ :=
  let key := rgCacheKey question generatedSql
  match clook key mem with
  | some r => (r, mem, fileC, 0)
  | none =>
    match clook key fileC with
    | some r => (r, cset key r mem, fileC, 0)
    | none =>
      match env.exec generatedSql with
      | none => (rgErrorRecord (chars "Failed to execute query") question now, mem, fileC, 1)
      | some rows =>
        if rows.isEmpty then
          (rgErrorRecord (chars "Failed to execute query") question now, mem, fileC, 1)
        else
          match env.funModel (createFunctionSelectionPrompt question rows) with
          | .error e => (rgErrorRecord e question now, mem, fileC, 1)
          | .ok response =>
            match processFunctionCalls env response rows with
            | .error e => (rgErrorRecord e question now, mem, fileC, 1)
            | .ok result0 =>
              let result := rgSuccessRecord result0 question searchResults selectedTable
                generatedSql expectedTable tsCorrect now
              let mem' := cset key result mem
              let file' := cset key result fileC
              match bindKwargs logQueryParams logResultsKwargNames with
              | .error e => (rgErrorRecord e question now, mem', file', 1)
              | .ok _ => (result, mem', file', 1)

/-!
SQLQueryGeneratorTester (`src/sql_query_generator_tester.py`): the three
cached operations.  Each returns its value, the updated memory and file
cache tiers, and the number of underlying (search or model) calls
performed.  A search failure propagates to the caller, so the search
oracle is total here; the two model calls are caught by the code
(`error` values become `None` results and are *not* cached).
-/

/-- Embeds `get_search_results` (file-backed memoised search). -/
def getSearchResults (api : List Char → List SearchResult) (question : List Char)
    (mem fileC : List (List Char × List SearchResult)) :
    List SearchResult × List (List Char × List SearchResult) ×
      List (List Char × List SearchResult) × ℕ :=
  match clook question mem with
  | some r => (r, mem, fileC, 0)
  | none =>
    match clook question fileC with
    | some r => (r, cset question r mem, fileC, 0)
    | none =>
      let results := api question
      (results, cset question results mem, cset question results fileC, 1)

/-- Embeds the tester's `select_table` (file-backed memoised table
selection; cache key is the question alone). -/
def testerSelectTable (model : List Char → Except (List Char) (List Char))
    (question : List Char) (searchResults : List SearchResult)
    (mem fileC : List (List Char × List Char)) :
    Option (List Char) × List (List Char × List Char) × List (List Char × List Char) × ℕ :=
  let key := question
  match clook key mem with
  | some r => (some r, mem, fileC, 0)
  | none =>
    match clook key fileC with
    | some r => (some r, cset key r mem, fileC, 0)
    | none =>
      match model (createTableSelectionPrompt question searchResults) with
      | .ok txt =>
        let selected := strip txt
        (some selected, cset key selected mem, cset key selected fileC, 1)
      | .error _ => (none, mem, fileC, 1)

/-- Cache key of the query-generation cache:
`f"{question}_{table_info}"`. -/
def genCacheKey (question tableInfo : List Char) : List Char :=
  question ++ '_' :: tableInfo

/-- Embeds the tester's `generate_query` (file-backed memoised SQL
generation; cache key is question and table info). -/
def testerGenerateQuery (model : List Char → Except (List Char) (List Char))
    (question tableInfo : List Char) (mem fileC : List (List Char × List Char)) :
    Option (List Char) × List (List Char × List Char) × List (List Char × List Char) × ℕ :=
  let key := genCacheKey question tableInfo
  match clook key mem with
  | some r => (some r, mem, fileC, 0)
  | none =>
    match clook key fileC with
    | some r => (some r, cset key r mem, fileC, 0)
    | none =>
      match model (createQueryPrompt question tableInfo) with
      | .ok txt =>
        let query := cleanSqlQuery txt
        (some query, cset key query mem, cset key query fileC, 1)
      | .error _ => (none, mem, fileC, 1)

/-- Embeds `TableSelector.select_table` (`src/table_selector.py`,
uncached): prompt the model, strip its text, `None` on a raised
exception. -/
def tsSelectTable (model : List Char → Except (List Char) (List Char))
    (question : List Char) (searchResults : List SearchResult) : Option (List Char) :=
  match model (createTableSelectionPrompt question searchResults) with
  | .ok txt => some (strip txt)
  | .error _ => none

/-!
QueryProcessor (`src/query_processor.py`): the per-question pipeline and
the batch driver.  The pipeline state carries the tester's
`query_generation` caches and the result generator's `function_results`
caches (the two caches actually consulted by `process_question`); search
and table selection are not cached on this path.  `_log_result` only
appends a CSV row through accepted keyword arguments, so it neither
raises nor affects modelled state.
-/

/-- Python truthiness of a string (`if not s`). -/
def pyTruthyStr (s : List Char) : Bool := !s.isEmpty

/-- The `table_selection_is_correct` argument computed by
`QueryProcessor.process_question`
(`selected_table == expected_table if expected_table else None`). -/
def tsCorrectOf (selectedTable : List Char) (expectedTable : Option (List Char)) :
    Option Bool :=
  match expectedTable with
  | some e => if pyTruthyStr e then some (decide (selectedTable = e)) else none
  | none => none

/-- Python truthiness of a record field value. -/
def fieldTruthy : FieldVal → Bool
  | .fs s => !s.isEmpty
  | .fb b => b
  | .fq x => decide (x ≠ 0)
  | .fnull => false
  | .frows rows => !rows.isEmpty
  | .fresults rs => !rs.isEmpty

/-- Oracles of the `QueryProcessor` pipeline: the direct search call
(raises propagate as `error`), the `TableSelector` and tester model
calls, the `ResultGenerator` oracles, and the wall-clock chunk duration
observed by `_handle_batch_wait` (keyed by the chunk's start index). -/
structure QPEnv where
  search : List Char → Except (List Char) (List SearchResult)
  selectModel : List Char → Except (List Char) (List Char)
  genModel : List Char → Except (List Char) (List Char)
  rg : RGEnv
  elapsed : ℕ → ℚ

/-- Mutable pipeline state: the two cache tiers of each consulted cache. -/
structure QPState where
  genMem : List (List Char × List Char)
  genFile : List (List Char × List Char)
  rgMem : List (List Char × Record)
  rgFile : List (List Char × Record)
deriving DecidableEq

/-- Error record of `QueryProcessor._create_error_result` (field order:
success, question, error, timestamp). -/
def qpErrorRecord (question e now : List Char) : Record :=
  [(chars "success", .fb false),
   (chars "question", .fs question),
   (chars "error", .fs e),
   (chars "timestamp", .fs now)]

/-- Embeds `QueryProcessor.process_question`: search, select, look up
table info, qualify the table id, generate SQL through the tester's
cached generator, run the result generator, then merge the
question-level fields into the returned record. -/
def qpProcessQuestion (env : QPEnv) (question : List Char) (expectedTable : Option (List Char))
    (now : List Char) (st : QPState) : Record × QPState :=
  match env.search question with
  | .error e => (qpErrorRecord question e now, st)
  | .ok searchResults =>
    if searchResults.isEmpty then
      (qpErrorRecord question (chars "検索結果が取得できませんでした") now, st)
    else
      match tsSelectTable env.selectModel question searchResults with
      | none => (qpErrorRecord question (chars "テーブル選択に失敗しました") now, st)
      | some selectedTable =>
        if !pyTruthyStr selectedTable then
          (qpErrorRecord question (chars "テーブル選択に失敗しました") now, st)
        else
          match getTableInfo searchResults selectedTable with
          | none => (qpErrorRecord question (chars "テーブル情報の取得に失敗しました") now, st)
          | some tableInfo0 =>
            if !pyTruthyStr tableInfo0 then
              (qpErrorRecord question (chars "テーブル情報の取得に失敗しました") now, st)
            else
              let qualifiedTable := chars "test_dataset." ++ selectedTable
              let tableInfo := replaceAll selectedTable qualifiedTable tableInfo0
              match testerGenerateQuery env.genModel question tableInfo st.genMem st.genFile with
              | (osql, genMem', genFile', _) =>
                let st := { st with genMem := genMem', genFile := genFile' }
                match osql with
                | none => (qpErrorRecord question (chars "SQLクエリの生成に失敗しました") now, st)
                | some sql =>
                  if !pyTruthyStr sql then
                    (qpErrorRecord question (chars "SQLクエリの生成に失敗しました") now, st)
                  else
                    match rgProcessQuestion env.rg question searchResults qualifiedTable sql
                        expectedTable (tsCorrectOf selectedTable expectedTable) now
                        st.rgMem st.rgFile with
                    | (rgResult, rgMem', rgFile', _) =>
                      let st := { st with rgMem := rgMem', rgFile := rgFile' }
                      let result := aupdate rgResult
                        [(chars "question", .fs question),
                         (chars "search_results", .fresults searchResults),
                         (chars "selected_table", .fs selectedTable),
                         (chars "generated_sql", .fs sql),
                         (chars "expected_table", optStrVal expectedTable),
                         (chars "timestamp", .fs now)]
                      (result, st)

/-- Sleep events issued by the batch driver: the fixed per-request sleep
and the adjusted inter-chunk wait (`max(0, batch_wait - elapsed)`;
`_handle_batch_wait` skips the `time.sleep` call exactly when that
amount is zero). -/
inductive BatchEvent where
  | requestSleep : ℚ → BatchEvent
  | batchWait : ℚ → BatchEvent
deriving DecidableEq

/-- Truthiness of `result["success"]` as tested by the batch loop (a
record without the key never occurs; the model reads it as false). -/
def recordSuccess (r : Record) : Bool :=
  match alook (chars "success") r with
  | some v => fieldTruthy v
  | none => false

/-- Per-chunk loop of `process_questions`: process each question, sleep
the fixed request wait after each one, and append the record to the
details or to the failed list by its success flag. -/
def processChunk (env : QPEnv) (chunk : List (List Char))
    (expectedTables : List Char → Option (List Char)) (requestWait : ℚ) (now : List Char)
    (st : QPState) : List Record × List Record × List BatchEvent × QPState :=
  match chunk with
  | [] => ([], [], [], st)
  | q :: rest =>
    let (r, st') := qpProcessQuestion env q (expectedTables q) now st
    let (det, fld, evs, st'') := processChunk env rest expectedTables requestWait now st'
    if recordSuccess r then (r :: det, fld, .requestSleep requestWait :: evs, st'')
    else (det, r :: fld, .requestSleep requestWait :: evs, st'')

/-- Fuel-indexed chunk loop of `process_questions` (`range(0, N, B)`
with `batch = questions[i:i+B]`; the wait runs only when
`i + B < N`).  The fuel only makes the recursion structural; starting it
at the question count never exhausts it for a positive batch size. -/
def processBatchesGo (env : QPEnv) (expectedTables : List Char → Option (List Char)) (B : ℕ)
    (batchWait requestWait : ℚ) (N : ℕ) (now : List Char) :
    ℕ → List (List Char) → ℕ → QPState → List Record × List Record × List BatchEvent × QPState
  | 0, _, _, st => ([], [], [], st)
  | _ + 1, [], _, st => ([], [], [], st)
  | fuel + 1, q :: rest, i, st =>
    let chunk := (q :: rest).take B
    let (det, fld, evs, st') := processChunk env chunk expectedTables requestWait now st
    let waitEvs :=
      if i + B < N then [BatchEvent.batchWait (max 0 (batchWait - env.elapsed i))] else []
    let (det2, fld2, evs2, st'') :=
      processBatchesGo env expectedTables B batchWait requestWait N now fuel
        ((q :: rest).drop B) (i + B) st'
    (det ++ det2, fld ++ fld2, evs ++ waitEvs ++ evs2, st'')

/-- Embeds `QueryProcessor.process_questions`: the chunked batch loop
over the question list.  Only meaningful for a positive batch size
(CPython raises `ValueError` on a zero `range` step; every theorem
below assumes `0 < B`). -/
def processQuestions (env : QPEnv) (questions : List (List Char))
    (expectedTables : List Char → Option (List Char)) (B : ℕ) (batchWait requestWait : ℚ)
    (now : List Char) (st : QPState) :
    List Record × List Record × List BatchEvent × QPState :=
  processBatchesGo env expectedTables B batchWait requestWait questions.length now
    questions.length questions 0 st

/-- Durations of the inter-chunk waits in a batch-event trace. -/
def batchWaitDurations (evs : List BatchEvent) : List ℚ :=
  evs.filterMap fun e =>
    match e with
    | .batchWait d => some d
    | _ => none

/-- Number of fixed per-request sleeps in a batch-event trace. -/
def requestSleepCount (evs : List BatchEvent) : ℕ :=
  (evs.filter fun e =>
    match e with
    | .requestSleep _ => true
    | _ => false).length

/-- Position of the first occurrence of `pat` in `s` (Python `s.find`),
as the length of the preceding segment. -/
def firstPos (pat s : List Char) : Option ℕ :=
  (splitOnFirst pat s).map fun p => p.1.length

/-- Single-column row used by the outlier-detection scenario of the
specification. -/
def zRow (x : ℚ) : Row := [(chars "value", CellVal.cq x)]

/-- The specification's outlier-detection data set: column values
`[1, 1, 1, 1, 100]`. -/
def zData : List Row := [zRow 1, zRow 1, zRow 1, zRow 1, zRow 100]

/-- Concrete single-row query result used by the cache scenarios. -/
def demoRow : Row := [(chars "qty", CellVal.cq 5)]

/-- Concrete `ResultGenerator` oracle assignment in which every external
call succeeds: the query returns one row, the function-selection model
returns plain text (no function call), and the answer model returns a
fixed answer. -/
def demoRGEnv : RGEnv where
  exec := fun _ => some [demoRow]
  funModel := fun _ => .ok ⟨none, chars "model text"⟩
  finalModel := fun _ => .ok (chars "answer")
  genTimeSeries := fun _ _ _ _ => none
  genBarChart := fun _ _ _ _ => none

/-- The function-call-processing result of `demoRGEnv` (no function
call, final answer `answer`). -/
def demoRes0 : Record :=
  [(chars "success", .fb true),
   (chars "executed_function", .fnull),
   (chars "function_result", .fnull),
   (chars "output_file", .fnull),
   (chars "final_answer", .fs (chars "answer"))]

/-- First call of `ResultGenerator.process_question` on empty caches in
the all-success oracle assignment. -/
def c4Run1 : Record × List (List Char × Record) × List (List Char × Record) × ℕ :=
  rgProcessQuestion demoRGEnv (chars "q") [] (chars "tbl") (chars "SELECT 1")
    none none (chars "T1") [] []

/-- Second call with the identical cache key on the caches left by the
first call. -/
def c4Run2 : Record × List (List Char × Record) × List (List Char × Record) × ℕ :=
  rgProcessQuestion demoRGEnv (chars "q") [] (chars "tbl") (chars "SELECT 1")
    none none (chars "T1") c4Run1.2.1 c4Run1.2.2.1

/-- Empty pipeline state (fresh caches). -/
def demoQPState : QPState := ⟨[], [], [], []⟩

/-- Concrete `QueryProcessor` oracle assignment in which the search call
raises; used to exercise the error path of the batch driver. -/
def demoQPEnvErr : QPEnv where
  search := fun _ => .error (chars "boom")
  selectModel := fun _ => .error (chars "x")
  genModel := fun _ => .error (chars "x")
  rg := demoRGEnv
  elapsed := fun _ => 0

/-- Concrete candidate-table content naming `invtbl`. -/
def demoContent : List Char :=
  chars "tableId: invtbl description: stock category: sales schema:"

/-- Concrete `QueryProcessor` oracle assignment in which search, table
selection and SQL generation succeed but the warehouse query execution
fails (`execute_query` returns `None`). -/
def demoQPEnvExecFail : QPEnv where
  search := fun _ => .ok [⟨chars "tbl", demoContent⟩]
  selectModel := fun _ => .ok (chars "invtbl")
  genModel := fun _ => .ok (chars "SELECT 1")
  rg :=
    { exec := fun _ => none
      funModel := fun _ => .ok ⟨none, chars "model text"⟩
      finalModel := fun _ => .ok (chars "answer")
      genTimeSeries := fun _ _ _ _ => none
      genBarChart := fun _ _ _ _ => none }
  elapsed := fun _ => 0

/-- Merged record produced when `QueryProcessor.process_question`
applies its `result.update` to an error record coming out of
`ResultGenerator.process_question`: the four error fields plus the four
question-level fields added by the update. -/
def qpMergedErrorRecord (e q now : List Char) (sr : List SearchResult) (sel sql : List Char)
    (et : Option (List Char)) : Record :=
  [(chars "success", .fb false),
   (chars "error", .fs e),
   (chars "question", .fs q),
   (chars "timestamp", .fs now),
   (chars "search_results", .fresults sr),
   (chars "selected_table", .fs sel),
   (chars "generated_sql", .fs sql),
   (chars "expected_table", optStrVal et)]

/-- Concrete `QueryProcessor` oracle assignment in which the whole
pipeline succeeds up to function dispatch, where the model requests the
`analyze_data` function with the unknown sub-mode `median`. -/
def demoQPEnvBadMode : QPEnv where
  search := fun _ => .ok [⟨chars "tbl", demoContent⟩]
  selectModel := fun _ => .ok (chars "invtbl")
  genModel := fun _ => .ok (chars "SELECT 1")
  rg :=
    { exec := fun _ => some [demoRow]
      funModel := fun _ =>
        .ok ⟨some ⟨chars "analyze_data", [(chars "analysis_type", chars "median")]⟩, chars ""⟩
      finalModel := fun _ => .ok (chars "answer")
      genTimeSeries := fun _ _ _ _ => none
      genBarChart := fun _ _ _ _ => none }
  elapsed := fun _ => 0

/-- Query-generation cache key arising in the concrete exec-failure
scenario. -/
def demoGenKey : List Char :=
  genCacheKey (chars "q")
    (replaceAll (chars "invtbl") (chars "test_dataset." ++ chars "invtbl") demoContent)

/-- Schema body text of a well-formed blob: the entries rendered as the
`- entry` runs that `format_content`'s split on `-` takes apart. -/
def schemaBody : List (List Char) → List Char
  | [] => []
  | [e] => '-' :: ' ' :: e
  | e :: es => '-' :: ' ' :: (e ++ ' ' :: schemaBody es)

/-- The pieces `split('-')` produces after the leading empty piece on a
well-formed schema body. -/
def schemaPieces : List (List Char) → List (List Char)
  | [] => []
  | [e] => [' ' :: e]
  | e :: es => (' ' :: (e ++ [' '])) :: schemaPieces es

/-- Well-formed input blob of `format_content`: all six section markers
in order, each section value padded by single spaces. -/
def wfBlob (t d c : List Char) (es : List (List Char)) (st et : List Char) : List Char :=
  chars "tableId:" ++ chars " " ++ t ++ chars " " ++
  chars "description:" ++ chars " " ++ d ++ chars " " ++
  chars "category:" ++ chars " " ++ c ++ chars " " ++
  chars "schema:" ++ chars " " ++ schemaBody es ++ chars " " ++
  chars "time_range:" ++ chars " " ++
  chars "start_time:" ++ chars " " ++ st ++ chars " " ++ chars "-" ++ chars " " ++
  chars "end_time:" ++ chars " " ++ et

/-- First occurrence condition: in `pre ++ pat ++ post` no occurrence of
`pat` starts before position `pre.length`. -/
def noEarlyOcc (pat pre post : List Char) : Prop :=
  ∀ i < pre.length, ¬ pat.isPrefixOf ((pre ++ pat ++ post).drop i) = true

instance (pat pre post : List Char) : Decidable (noEarlyOcc pat pre post) := by
  unfold noEarlyOcc; infer_instance

/-!
Lemma layer: correspondence between the embedded Python string
operations and list predicates.
-/

theorem splitOnFirst_isSome_iff_infix (pat s : List Char) :
    (splitOnFirst pat s).isSome = true ↔ pat <:+: s := by
  induction s with
  | nil =>
    simp only [splitOnFirst]
    by_cases h : pat.isPrefixOf [] = true
    · simp only [h, if_true, Option.isSome_some, true_iff]
      exact (List.isPrefixOf_iff_prefix.mp h).isInfix
    · simp only [h, if_false, Option.isSome_none, Bool.false_eq_true, false_iff]
      intro hinf
      have hp : pat = [] := List.infix_nil.mp hinf
      subst hp
      exact h (List.isPrefixOf_iff_prefix.mpr List.nil_prefix)
  | cons c rest ih =>
    simp only [splitOnFirst]
    by_cases h : pat.isPrefixOf (c :: rest) = true
    · simp only [h, if_true, Option.isSome_some, true_iff]
      exact (List.isPrefixOf_iff_prefix.mp h).isInfix
    · have hnp : ¬ pat <+: (c :: rest) := fun hp => h (List.isPrefixOf_iff_prefix.mpr hp)
      rw [if_neg h]
      simp only [Option.isSome_map']
      rw [ih, List.infix_cons_iff]
      exact (or_iff_right hnp).symm

theorem containsSub_infix_iff (pat s : List Char) :
    containsSub pat s = true ↔ pat <:+: s := by
  unfold containsSub; exact splitOnFirst_isSome_iff_infix pat s

theorem containsSub_false_of_infix (pat sub s : List Char) (hsub : sub <:+: s)
    (h : containsSub pat s = false) : containsSub pat sub = false := by
  by_contra hc
  have h1 : containsSub pat sub = true := by
    cases hx : containsSub pat sub with
    | true => rfl
    | false => exact absurd hx hc
  have h2 : pat <:+: s := ((containsSub_infix_iff pat sub).mp h1).trans hsub
  rw [(containsSub_infix_iff pat s).mpr h2] at h
  exact Bool.true_eq_false.mp h

theorem splitOnFirst_eq_append (pat s a b : List Char)
    (h : splitOnFirst pat s = some (a, b)) : s = a ++ pat ++ b := by
  induction s generalizing a with
  | nil =>
    simp only [splitOnFirst] at h
    by_cases hp : pat.isPrefixOf [] = true
    · have hpat : pat = [] := List.prefix_nil.mp (List.isPrefixOf_iff_prefix.mp hp)
      rw [if_pos hp] at h
      simp only [Option.some_inj, Prod.mk.injEq] at h
      obtain ⟨rfl, rfl⟩ := h
      simp [hpat]
    · rw [if_neg hp] at h
      simp at h
  | cons c rest ih =>
    simp only [splitOnFirst] at h
    by_cases hp : pat.isPrefixOf (c :: rest) = true
    · rw [if_pos hp] at h
      simp only [Option.some_inj, Prod.mk.injEq] at h
      obtain ⟨rfl, rfl⟩ := h
      obtain ⟨t, ht⟩ := List.isPrefixOf_iff_prefix.mp hp
      simp only [List.nil_append]
      rw [← ht, List.drop_left]
    · rw [if_neg hp] at h
      simp only [Option.map_eq_some'] at h
      obtain ⟨⟨a', b'⟩, hs, hab⟩ := h
      simp only [Prod.mk.injEq] at hab
      obtain ⟨rfl, rfl⟩ := hab
      have := ih a' hs
      simp [this]

theorem splitOnFirst_snd_suffix (pat s a b : List Char)
    (h : splitOnFirst pat s = some (a, b)) : b <:+ s := by
  rw [splitOnFirst_eq_append pat s a b h]
  exact List.suffix_append (a ++ pat) b

theorem splitOnFirst_of_isPrefixOf (pat s : List Char) (h : pat.isPrefixOf s = true) :
    splitOnFirst pat s = some ([], s.drop pat.length) := by
  cases s with
  | nil =>
    have hpat : pat = [] := List.prefix_nil.mp (List.isPrefixOf_iff_prefix.mp h)
    subst hpat
    simp [splitOnFirst]
  | cons c rest => simp [splitOnFirst, h]

theorem splitOnFirst_of_noEarlyOcc (pat pre post : List Char)
    (h : noEarlyOcc pat pre post) :
    splitOnFirst pat (pre ++ pat ++ post) = some (pre, post) := by
  induction pre with
  | nil =>
    have hpre : pat.isPrefixOf (pat ++ post) = true :=
      List.isPrefixOf_iff_prefix.mpr (List.prefix_append pat post)
    simp only [List.nil_append]
    rw [splitOnFirst_of_isPrefixOf pat (pat ++ post) hpre, List.drop_left]
  | cons c pre' ih =>
    have h0 : ¬ pat.isPrefixOf (c :: (pre' ++ pat ++ post)) = true := by
      have := h 0 (by simp)
      simpa using this
    have ih' : splitOnFirst pat (pre' ++ pat ++ post) = some (pre', post) := by
      apply ih
      intro i hi
      have := h (i + 1) (by simpa using Nat.succ_lt_succ hi)
      simpa using this
    show splitOnFirst pat (c :: (pre' ++ pat ++ post)) = some (c :: pre', post)
    simp only [splitOnFirst]
    rw [if_neg h0, ih']
    rfl

theorem strip_infix_self (l : List Char) : strip l <:+: l := by
  unfold strip
  have h1 : l.dropWhile isSpace <:+ l := List.dropWhile_suffix _
  have h2 : (l.dropWhile isSpace).reverse.dropWhile isSpace <:+ (l.dropWhile isSpace).reverse :=
    List.dropWhile_suffix _
  have h3 : ((l.dropWhile isSpace).reverse.dropWhile isSpace).reverse <+:
      (l.dropWhile isSpace) := by
    rw [← List.reverse_suffix, List.reverse_reverse]
    exact h2
  exact h3.isInfix.trans h1.isInfix

theorem parseTableIdPhase_snd_infix (c : List Char) : (parseTableIdPhase c).2 <:+: c := by
  unfold parseTableIdPhase
  by_cases h : containsSub (chars "tableId:") c = true
  · rw [if_pos h]
    cases hs : splitOnFirst (chars "description:") c with
    | none => exact List.infix_refl c
    | some p =>
      obtain ⟨a, b⟩ := p
      exact (strip_infix_self b).trans (splitOnFirst_snd_suffix _ c a b hs).isInfix
  · rw [if_neg h]

theorem render_shape (s : Sections) :
    render s = chars "tableId: " ++ s.tableId ++ chars "\ncategory: " ++ s.category ++
      chars "\ndescription: " ++ s.description ++ chars "\nschema:" ++
      (s.schema.map fun e => chars "\n  - " ++ e).flatten ++
      chars "\ntime_range:\n  - start_time: " ++ s.startTime ++
      chars "\n  - end_time: " ++ s.endTime := by
  obtain ⟨tid, desc, cat, es, st, et⟩ := s
  simp only [render]
  induction es with
  | nil => simp [joinSep, chars, List.append_assoc]
  | cons e rest ih => simp_all [joinSep, chars, List.append_assoc]

theorem infix_mid {α : Type} (M X Y Z : List α) : M <:+: X ++ (Y ++ (M ++ Z)) :=
  ⟨X ++ Y, Z, by simp [List.append_assoc]⟩

theorem infix_mid2 {α : Type} (M X Z : List α) : M <:+: (X ++ M) ++ Z :=
  ⟨X, Z, by simp [List.append_assoc]⟩

/-- C1.  The claim is false on the code.  Counterexample: in the blob
`tableId: invtbl category: sales schema: - name: q, type: T time_range:
start_time: a - end_time: b` the marker `description:` is absent, yet
the description section of the parse (a section *after* the missing
marker) is the non-empty text `tableId: invtbl`, and the tableId
section (a section *before* the missing marker whose marker is present)
loses its value and comes out empty. -/
theorem C1_counterexample_missing_description :
    containsSub (chars "description:")
      (chars "tableId: invtbl category: sales schema: - name: q, type: T time_range: start_time: a - end_time: b") = false ∧
    (parseSections
      (chars "tableId: invtbl category: sales schema: - name: q, type: T time_range: start_time: a - end_time: b")).description =
      chars "tableId: invtbl" ∧
    (parseSections
      (chars "tableId: invtbl category: sales schema: - name: q, type: T time_range: start_time: a - end_time: b")).tableId =
      [] := by
  refine ⟨by decide, by decide, by decide⟩

/-- C1 (amended).  `format_content` never raises (it is a total
function of the blob); however a missing marker does not in general
leave earlier sections intact nor later sections empty (see the
counterexample).  What does hold: when the `category:` marker is absent
from the cleaned blob, every section other than tableId is empty in the
parse and hence in the reassembled output. -/
theorem C1_missing_marker_amended (raw : List Char)
    (h : containsSub (chars "category:") (cleanContent raw) = false) :
    parseSections raw = ⟨(parseSections raw).tableId, [], [], [], [], []⟩ ∧
    formatContent raw = render ⟨(parseSections raw).tableId, [], [], [], [], []⟩ := by
  have hinf := parseTableIdPhase_snd_infix (cleanContent raw)
  have h2 : containsSub (chars "category:") (parseTableIdPhase (cleanContent raw)).2 = false :=
    containsSub_false_of_infix _ _ _ hinf h
  have h3 : ¬ containsSub (chars "category:") (parseTableIdPhase (cleanContent raw)).2 = true := by
    simp [h2]
  have hps : parseSections raw =
      parseBodyPhase (parseTableIdPhase (cleanContent raw)).1
        (parseTableIdPhase (cleanContent raw)).2 := rfl
  have hbody : parseBodyPhase (parseTableIdPhase (cleanContent raw)).1
      (parseTableIdPhase (cleanContent raw)).2 =
      ⟨(parseTableIdPhase (cleanContent raw)).1, [], [], [], [], []⟩ := by
    unfold parseBodyPhase
    rw [if_neg h3]
  constructor
  · rw [hps, hbody]
  · show render (parseSections raw) = _
    rw [hps, hbody]

/-- C1 (witness): the amended theorem applied to the concrete blob
`tableId: x description: y`, which has no `category:` marker. -/
theorem C1_missing_marker_witness :
    containsSub (chars "category:") (cleanContent (chars "tableId: x description: y")) = false ∧
    parseSections (chars "tableId: x description: y") =
      ⟨(parseSections (chars "tableId: x description: y")).tableId, [], [], [], [], []⟩ :=
  ⟨by decide, (C1_missing_marker_amended (chars "tableId: x description: y") (by decide)).1⟩

/-- C2.  The claim is false on the code: the rendered block puts
`category:` *before* `description:`, while the claim requires
`description:` before `category:`.  In `format_content ""` the first
occurrence of `category:` is at position 10 and the first occurrence of
`description:` at position 21. -/
theorem C2_counterexample_header_order :
    firstPos (chars "category:") (formatContent (chars "")) = some 10 ∧
    firstPos (chars "description:") (formatContent (chars "")) = some 21 ∧ 10 < 21 := by
  refine ⟨by decide, by decide, by decide⟩

/-- C2 (amended).  For every input the parser's output block contains
the section headers in the fixed order `tableId:`, `category:`,
`description:`, `schema:`, `time_range:`, `start_time:`, `end_time:`
(category and description swapped with respect to the claim), and the
Selector/Generator prompts embed the candidate contents and the table
info verbatim. -/
theorem C2_header_order_amended :
    (∀ c, formatContent c =
      chars "tableId: " ++ (parseSections c).tableId ++ chars "\ncategory: " ++
      (parseSections c).category ++ chars "\ndescription: " ++ (parseSections c).description ++
      chars "\nschema:" ++ ((parseSections c).schema.map fun e => chars "\n  - " ++ e).flatten ++
      chars "\ntime_range:\n  - start_time: " ++ (parseSections c).startTime ++
      chars "\n  - end_time: " ++ (parseSections c).endTime) ∧
    (∀ q results r, r ∈ results → r.content <:+: createTableSelectionPrompt q results) ∧
    (∀ q tableInfo, tableInfo <:+: createQueryPrompt q tableInfo) := by
  refine ⟨fun c => render_shape (parseSections c), ?_, ?_⟩
  · intro q results r hr
    obtain ⟨l1, l2, rfl⟩ := List.append_of_mem hr
    have h1 : r.content <:+: chars "\n" ++ r.content ++ chars "\n---" :=
      List.infix_append _ _ _
    have h2 : (chars "\n" ++ r.content ++ chars "\n---") <:+:
        createTableSelectionPrompt q (l1 ++ r :: l2) := by
      unfold createTableSelectionPrompt
      rw [List.map_append, List.flatten_append, List.map_cons, List.flatten_cons]
      exact infix_mid _ _ _ _
    exact h1.trans h2
  · intro q tableInfo
    unfold createQueryPrompt
    exact infix_mid2 _ _ _

/-- C2 (witness): the amended prompt-embedding clause applied to a
concrete question and singleton result list. -/
theorem C2_header_order_witness :
    (⟨chars "T", chars "C"⟩ : SearchResult) ∈ [(⟨chars "T", chars "C"⟩ : SearchResult)] ∧
    chars "C" <:+: createTableSelectionPrompt (chars "Q") [⟨chars "T", chars "C"⟩] :=
  ⟨List.mem_singleton_self _,
   C2_header_order_amended.2.1 (chars "Q") [⟨chars "T", chars "C"⟩] ⟨chars "T", chars "C"⟩
     (List.mem_singleton_self _)⟩

/-- C3.  The claim is false on the code: with pandas' sample standard
deviation (`ddof = 1`, variance 1960.2) the z-score of the value 100 in
`[1, 1, 1, 1, 100]` is `79.2 / sqrt(1960.2) ≈ 1.789`, not above the
default threshold 2.0 (even the population standard deviation would
give exactly 2.0, still not strictly above), so `detect_outliers` does
not return the record with value 100. -/
theorem C3_counterexample_outlier :
    detectOutliers zData (chars "value") 2 ≠ [zRow 100] := by
  have h : detectOutliers zData (chars "value") 2 = [] := by
    norm_num [detectOutliers, hasCol, colVals, colMean, colSampleVar, rlook, zData, zRow,
      chars, List.filterMap, List.foldl, List.filter, List.any]
  rw [h]
  simp

/-- C3 (amended): on the column values `[1, 1, 1, 1, 100]` with the
default threshold 2.0, `detect_outliers` returns the empty list — no
record is reported as an outlier. -/
theorem C3_outlier_amended : detectOutliers zData (chars "value") 2 = [] := by
  norm_num [detectOutliers, hasCol, colVals, colMean, colSampleVar, rlook, zData, zRow,
    chars, List.filterMap, List.foldl, List.filter, List.any]

/-- C6.  The concatenated cache keys are not injective: the pairs
`("a_b", "c")` and `("a", "b_c")` are distinct but both derive the key
`"a_b_c"`, for the function-result key (`question + "_" + sql`) and the
query-generation key (`question + "_" + table_info`) alike. -/
theorem C6_cache_key_collision :
    ∃ q sql q' sql' : List Char,
      (q, sql) ≠ (q', sql') ∧ rgCacheKey q sql = rgCacheKey q' sql' ∧
      genCacheKey q sql = genCacheKey q' sql' := by
  refine ⟨chars "a_b", chars "c", chars "a", chars "b_c", ?_, ?_, ?_⟩ <;> decide

theorem containsSub_cons (pat : List Char) (c : Char) (l : List Char) :
    containsSub pat (c :: l) = (pat.isPrefixOf (c :: l) || containsSub pat l) := by
  by_cases h : pat.isPrefixOf (c :: l) = true
  · simp [containsSub, splitOnFirst, h]
  · have hb : pat.isPrefixOf (c :: l) = false := by
      cases hx : pat.isPrefixOf (c :: l) with
      | true => exact absurd hx h
      | false => rfl
    simp [containsSub, splitOnFirst, hb, Option.isSome_map']

theorem replaceAllGo_head_backtick (fuel : ℕ) (s : List Char)
    (h : (replaceAllGo (chars "```") [] fuel s).head? = some '`') : s.head? = some '`' := by
  cases fuel with
  | zero => exact h
  | succ fuel =>
    cases s with
    | nil => simp [replaceAllGo] at h
    | cons c rest =>
      by_cases hc : (chars "```") ≠ [] ∧ (chars "```").isPrefixOf (c :: rest) = true
      · have : c = '`' := by
          have hp := hc.2
          rw [show chars "```" = '`' :: chars "``" from rfl] at hp
          simp [List.isPrefixOf] at hp
          exact hp.1.symm
        simp [this]
      · rw [replaceAllGo, if_neg hc] at h
        simp only [List.head?_cons, Option.some_inj] at h
        simp [h]

theorem replaceAllGo_head2_backtick (fuel : ℕ) (s : List Char)
    (h : (chars "``").isPrefixOf (replaceAllGo (chars "```") [] fuel s) = true) :
    (chars "``").isPrefixOf s = true := by
  cases fuel with
  | zero => exact h
  | succ fuel =>
    cases s with
    | nil =>
      simp only [replaceAllGo] at h
      exact absurd h (by decide)
    | cons c rest =>
      by_cases hc : (chars "```") ≠ [] ∧ (chars "```").isPrefixOf (c :: rest) = true
      · have hp := hc.2
        rw [show chars "```" = ['`', '`', '`'] from rfl] at hp
        rw [show chars "``" = ['`', '`'] from rfl]
        cases rest with
        | nil => simp [List.isPrefixOf] at hp
        | cons c2 rest2 =>
          simp only [List.isPrefixOf, Bool.and_eq_true, beq_iff_eq] at hp ⊢
          exact ⟨hp.1, hp.2.1, trivial⟩
      · simp only [replaceAllGo] at h
        rw [if_neg hc] at h
        rw [show chars "``" = ['`', '`'] from rfl] at h ⊢
        cases hr : replaceAllGo (chars "```") [] fuel rest with
        | nil =>
          rw [hr] at h
          simp [List.isPrefixOf] at h
        | cons x xs =>
          rw [hr] at h
          simp only [List.isPrefixOf, Bool.and_eq_true, beq_iff_eq] at h
          obtain ⟨hc1, hx1⟩ := h
          have hh : (replaceAllGo (chars "```") [] fuel rest).head? = some '`' := by
            rw [hr]
            simp [← hx1.1]
          have hrest := replaceAllGo_head_backtick fuel rest hh
          cases rest with
          | nil => simp at hrest
          | cons y ys =>
            simp only [List.head?_cons, Option.some_inj] at hrest
            simp only [List.isPrefixOf, Bool.and_eq_true, beq_iff_eq]
            exact ⟨hc1, hrest.symm, trivial⟩

theorem replaceAllGo_no_fence (fuel : ℕ) (s : List Char) (hle : s.length ≤ fuel) :
    containsSub (chars "```") (replaceAllGo (chars "```") [] fuel s) = false := by
  induction fuel generalizing s with
  | zero =>
    have hs : s = [] := List.length_eq_zero.mp (Nat.le_zero.mp hle)
    subst hs
    decide
  | succ fuel ih =>
    cases s with
    | nil =>
      simp only [replaceAllGo]
      decide
    | cons c rest =>
      have hlen : rest.length ≤ fuel := by
        simp only [List.length_cons] at hle
        omega
      by_cases hc : (chars "```") ≠ [] ∧ (chars "```").isPrefixOf (c :: rest) = true
      · simp only [replaceAllGo]
        rw [if_pos hc]
        simp only [List.nil_append]
        apply ih
        rw [List.length_drop, show (chars "```").length = 3 from rfl, List.length_cons]
        omega
      · simp only [replaceAllGo]
        rw [if_neg hc, containsSub_cons]
        have h2 : containsSub (chars "```") (replaceAllGo (chars "```") [] fuel rest) = false :=
          ih rest hlen
        have h1 : (chars "```").isPrefixOf
            (c :: replaceAllGo (chars "```") [] fuel rest) = false := by
          cases hx : (chars "```").isPrefixOf (c :: replaceAllGo (chars "```") [] fuel rest) with
          | false => rfl
          | true =>
            exfalso
            rw [show chars "```" = '`' :: chars "``" from rfl] at hx
            simp only [List.isPrefixOf, Bool.and_eq_true, beq_iff_eq] at hx
            obtain ⟨hcb, hp⟩ := hx
            have hr : (chars "``").isPrefixOf rest = true :=
              replaceAllGo_head2_backtick fuel rest hp
            apply hc
            refine ⟨by decide, ?_⟩
            rw [show chars "```" = '`' :: chars "``" from rfl]
            subst hcb
            simp [List.isPrefixOf, hr]
        rw [h1, h2]
        rfl

theorem replaceAll_no_fence (s : List Char) :
    containsSub (chars "```") (replaceAll (chars "```") [] s) = false :=
  replaceAllGo_no_fence s.length s (Nat.le_refl _)

theorem splitChar_decomp (c : Char) (s : List Char) :
    ∃ h t, splitChar c s = h :: t ∧ h <+: s ∧ ∀ l ∈ t, l <:+: s := by
  induction s with
  | nil => exact ⟨[], [], rfl, List.nil_prefix, by simp⟩
  | cons x rest ih =>
    obtain ⟨h', t', heq, hp, ht⟩ := ih
    by_cases hx : x = c
    · refine ⟨[], splitChar c rest, by simp [splitChar, hx], List.nil_prefix, ?_⟩
      intro l hl
      rw [heq] at hl
      rcases List.mem_cons.mp hl with rfl | hl
      · exact List.infix_cons_iff.mpr (Or.inr hp.isInfix)
      · exact List.infix_cons_iff.mpr (Or.inr (ht l hl))
    · refine ⟨x :: h', t', by simp [splitChar, hx, heq], List.cons_prefix_cons.mpr ⟨rfl, hp⟩, ?_⟩
      intro l hl
      exact List.infix_cons_iff.mpr (Or.inr (ht l hl))

theorem mem_splitChar_infix (c : Char) (s l : List Char) (hl : l ∈ splitChar c s) :
    l <:+: s := by
  obtain ⟨h', t', heq, hp, ht⟩ := splitChar_decomp c s
  rw [heq] at hl
  rcases List.mem_cons.mp hl with rfl | hl
  · exact hp.isInfix
  · exact ht l hl

theorem prefix_append_sep (sep : Char) (pat : List Char) :
    ∀ a b : List Char, (∀ x ∈ pat, x ≠ sep) → pat <+: a ++ sep :: b → pat <+: a := by
  induction pat with
  | nil => intro a b _ _; exact List.nil_prefix
  | cons p ps ih =>
    intro a b hsep h
    cases a with
    | nil =>
      rw [List.nil_append] at h
      exact absurd (List.cons_prefix_cons.mp h).1 (hsep p (List.mem_cons_self p ps))
    | cons y ys =>
      rw [List.cons_append] at h
      obtain ⟨hpy, hps⟩ := List.cons_prefix_cons.mp h
      exact List.cons_prefix_cons.mpr
        ⟨hpy, ih ys b (fun x hx => hsep x (List.mem_cons_of_mem p hx)) hps⟩

theorem infix_append_sep (sep : Char) (pat : List Char) (hne : pat ≠ [])
    (hsep : ∀ x ∈ pat, x ≠ sep) :
    ∀ a b : List Char, pat <:+: a ++ sep :: b → pat <:+: a ∨ pat <:+: b := by
  intro a
  induction a with
  | nil =>
    intro b h
    rw [List.nil_append] at h
    rcases List.infix_cons_iff.mp h with hp | hi
    · cases pat with
      | nil => exact absurd rfl hne
      | cons p ps =>
        exact absurd (List.cons_prefix_cons.mp hp).1 (hsep p (List.mem_cons_self _ _))
    · exact Or.inr hi
  | cons y ys ih =>
    intro b h
    rw [List.cons_append] at h
    rcases List.infix_cons_iff.mp h with hp | hi
    · left
      have hpre : pat <+: (y :: ys) :=
        prefix_append_sep sep pat (y :: ys) b hsep (by rw [List.cons_append]; exact hp)
      exact hpre.isInfix
    · rcases ih b hi with h1 | h2
      · exact Or.inl (List.infix_cons_iff.mpr (Or.inr h1))
      · exact Or.inr h2

theorem containsSub_joinSep (sep : Char) (pat : List Char) (hne : pat ≠ [])
    (hsep : ∀ x ∈ pat, x ≠ sep) (ls : List (List Char))
    (h : ∀ l ∈ ls, containsSub pat l = false) :
    containsSub pat (joinSep sep ls) = false := by
  induction ls with
  | nil =>
    cases pat with
    | nil => exact absurd rfl hne
    | cons p ps => simp [containsSub, splitOnFirst, joinSep, List.isPrefixOf]
  | cons l ls ih =>
    cases ls with
    | nil => exact h l (by simp)
    | cons m ms =>
      have hm : ∀ x ∈ (m :: ms), containsSub pat x = false :=
        fun x hx => h x (List.mem_cons_of_mem l hx)
      have ihm := ih hm
      cases hx : containsSub pat (joinSep sep (l :: m :: ms)) with
      | false => rfl
      | true =>
        exfalso
        have hinf : pat <:+: l ++ sep :: joinSep sep (m :: ms) :=
          (containsSub_infix_iff pat _).mp hx
        rcases infix_append_sep sep pat hne hsep l (joinSep sep (m :: ms)) hinf with h1 | h2
        · have hcl := h l (List.mem_cons_self _ _)
          have := (containsSub_infix_iff pat l).mpr h1
          rw [hcl] at this
          exact Bool.false_ne_true this
        · have := (containsSub_infix_iff pat _).mpr h2
          rw [ihm] at this
          exact Bool.false_ne_true this

/-- C10.  `_clean_sql_query` behaves as claimed: the concrete fenced
input ` ```sql\nSELECT 1\n``` ` cleans to exactly `SELECT 1`; for every
input, the output contains no ``` ``` `` fence substring (hence no
```` ```sql ```` either); every line surviving the comment filter has a
stripped form not starting with `#`; and the result is the
whitespace-stripped newline-join of those surviving lines. -/
theorem C10_clean_sql_query :
    cleanSqlQuery (chars "```sql\nSELECT 1\n```") = chars "SELECT 1" ∧
    (∀ s, containsSub (chars "```") (cleanSqlQuery s) = false) ∧
    (∀ s, ((splitChar '\n' (replaceAll (chars "```") [] (replaceAll (chars "```sql") [] s))).filter
        (fun line => !(chars "#").isPrefixOf (strip line))).all
        (fun line => !(chars "#").isPrefixOf (strip line)) = true) ∧
    (∀ s, cleanSqlQuery s =
      strip (joinSep '\n'
        ((splitChar '\n' (replaceAll (chars "```") [] (replaceAll (chars "```sql") [] s))).filter
          fun line => !(chars "#").isPrefixOf (strip line)))) := by
  refine ⟨by decide, ?_, ?_, fun s => rfl⟩
  · intro s
    show containsSub (chars "```")
      (strip (joinSep '\n'
        ((splitChar '\n' (replaceAll (chars "```") [] (replaceAll (chars "```sql") [] s))).filter
          fun line => !(chars "#").isPrefixOf (strip line)))) = false
    apply containsSub_false_of_infix _ _ _ (strip_infix_self _)
    apply containsSub_joinSep '\n' (chars "```") (by decide) (by decide)
    intro l hl
    have hmem : l ∈ splitChar '\n' (replaceAll (chars "```") [] (replaceAll (chars "```sql") [] s)) :=
      List.mem_of_mem_filter hl
    have hinf := mem_splitChar_infix '\n' _ l hmem
    exact containsSub_false_of_infix _ _ _ hinf (replaceAll_no_fence _)
  · intro s
    rw [List.all_eq_true]
    intro l hl
    exact (List.mem_filter.mp hl).2

theorem clook_cset_self {α : Type} (k : List Char) (v : α) (d : List (List Char × α)) :
    clook k (cset k v d) = some v := by
  induction d with
  | nil => simp [clook, cset]
  | cons kv rest ih =>
    obtain ⟨k', v'⟩ := kv
    by_cases h : k' = k
    · simp [clook, cset, h]
    · simp [clook, cset, h, ih]

theorem alook_aset_ne (k k' : List Char) (v : FieldVal) (d : Record) (h : k' ≠ k) :
    alook k (aset k' v d) = alook k d := by
  induction d with
  | nil => simp [alook, aset, h]
  | cons kv rest ih =>
    obtain ⟨k0, v0⟩ := kv
    by_cases h0 : k0 = k'
    · subst h0
      simp [alook, aset, h]
    · by_cases h1 : k0 = k
      · simp [alook, aset, h0, h1, Ne.symm h]
      · simp [alook, aset, h0, h1, ih]

theorem alook_aupdate_not_mem (k : List Char) (kvs : Record) (d : Record)
    (h : ∀ kv ∈ kvs, kv.1 ≠ k) : alook k (aupdate d kvs) = alook k d := by
  induction kvs generalizing d with
  | nil => rfl
  | cons kv rest ih =>
    obtain ⟨k', v'⟩ := kv
    show alook k (aupdate (aset k' v' d) rest) = alook k d
    rw [ih (aset k' v' d) fun x hx => h x (List.mem_cons_of_mem _ hx)]
    exact alook_aset_ne k k' v' d (h (k', v') (List.mem_cons_self _ _))

theorem handleAnalysisFunction_keys (args : List (List Char × List Char)) (data : List Row)
    (upd : Record) (h : handleAnalysisFunction args data = .ok upd) :
    ∀ kv ∈ upd, kv.1 ≠ chars "success" := by
  unfold handleAnalysisFunction at h
  dsimp only at h
  have key : ∀ (n1 n2 : List Char) (x y : FieldVal), n1 ≠ chars "success" →
      n2 ≠ chars "success" → ∀ kv ∈ [(n1, x), (n2, y)], kv.1 ≠ chars "success" := by
    intro n1 n2 x y h1 h2 kv hkv
    rcases List.mem_cons.mp hkv with rfl | hkv
    · exact h1
    · rcases List.mem_cons.mp hkv with rfl | hkv
      · exact h2
      · simp at hkv
  split_ifs at h
  all_goals try (simp only [Except.ok.injEq] at h; subst h; exact key _ _ _ _ (by decide) (by decide))

theorem handleGraphFunction_keys (env : RGEnv) (args : List (List Char × List Char))
    (data : List Row) (upd : Record) (h : handleGraphFunction env args data = .ok upd) :
    ∀ kv ∈ upd, kv.1 ≠ chars "success" := by
  unfold handleGraphFunction at h
  dsimp only at h
  have key : ∀ (n1 n2 : List Char) (x y : FieldVal), n1 ≠ chars "success" →
      n2 ≠ chars "success" → ∀ kv ∈ [(n1, x), (n2, y)], kv.1 ≠ chars "success" := by
    intro n1 n2 x y h1 h2 kv hkv
    rcases List.mem_cons.mp hkv with rfl | hkv
    · exact h1
    · rcases List.mem_cons.mp hkv with rfl | hkv
      · exact h2
      · simp at hkv
  split_ifs at h
  all_goals try (simp only [Except.ok.injEq] at h; subst h; exact key _ _ _ _ (by decide) (by decide))

theorem pfcDispatch_success (env : RGEnv) (resp : ModelResponse) (rows : List Row)
    (r : Record) (h : pfcDispatch env resp rows = .ok r) :
    alook (chars "success") r = some (.fb true) := by
  have hbase : alook (chars "success") pfcBase = some (.fb true) := by decide
  have hbase1 : ∀ nm, alook (chars "success")
      (aset (chars "executed_function") (.fs nm) pfcBase) = some (.fb true) := by
    intro nm
    rw [alook_aset_ne _ _ _ _ (by decide)]
    exact hbase
  unfold pfcDispatch at h
  cases hfc : resp.functionCall with
  | none =>
    rw [hfc] at h
    simp only [Except.ok.injEq] at h
    subst h
    exact hbase
  | some fc =>
    rw [hfc] at h
    dsimp only at h
    by_cases han : fc.name = chars "analyze_data"
    · rw [if_pos han] at h
      cases hha : handleAnalysisFunction fc.args rows with
      | error e => rw [hha] at h; simp [Except.map] at h
      | ok upd =>
        rw [hha] at h
        simp only [Except.map, Except.ok.injEq] at h
        subst h
        rw [alook_aupdate_not_mem _ _ _ (handleAnalysisFunction_keys fc.args rows upd hha)]
        exact hbase1 fc.name
    · rw [if_neg han] at h
      by_cases hgr : fc.name = chars "generate_graph"
      · rw [if_pos hgr] at h
        cases hhg : handleGraphFunction env fc.args rows with
        | error e => rw [hhg] at h; simp [Except.map] at h
        | ok upd =>
          rw [hhg] at h
          simp only [Except.map, Except.ok.injEq] at h
          subst h
          rw [alook_aupdate_not_mem _ _ _ (handleGraphFunction_keys env fc.args rows upd hhg)]
          exact hbase1 fc.name
      · rw [if_neg hgr] at h
        simp only [Except.ok.injEq] at h
        subst h
        exact hbase1 fc.name

theorem processFunctionCalls_success (env : RGEnv) (resp : ModelResponse) (rows : List Row)
    (r : Record) (h : processFunctionCalls env resp rows = .ok r) :
    alook (chars "success") r = some (.fb true) := by
  unfold processFunctionCalls at h
  cases hd : pfcDispatch env resp rows with
  | error e => rw [hd] at h; simp at h
  | ok res =>
    rw [hd] at h
    unfold finishWithAnswer at h
    dsimp only at h
    cases hfm : env.finalModel (createFinalAnswerPrompt res) with
    | error e => rw [hfm] at h; simp at h
    | ok txt =>
      rw [hfm] at h
      simp only [Except.ok.injEq] at h
      subst h
      rw [alook_aset_ne _ _ _ _ (by decide)]
      exact pfcDispatch_success env resp rows res hd

theorem alook_success_rgErrorRecord (e q now : List Char) :
    alook (chars "success") (rgErrorRecord e q now) = some (.fb false) := by
  unfold rgErrorRecord alook
  rw [if_pos rfl]

theorem alook_success_rgSuccessRecord (res0 : Record) (q : List Char)
    (sr : List SearchResult) (sel sql : List Char) (et : Option (List Char))
    (tc : Option Bool) (now : List Char) :
    alook (chars "success") (rgSuccessRecord res0 q sr sel sql et tc now) =
      alook (chars "success") res0 := by
  unfold rgSuccessRecord
  apply alook_aupdate_not_mem
  intro kv hkv
  simp only [List.mem_cons, List.not_mem_nil, or_false] at hkv
  rcases hkv with rfl | rfl | rfl | rfl | rfl | rfl | rfl <;>
    first
    | (show chars "question" ≠ chars "success"; decide)
    | (show chars "search_results" ≠ chars "success"; decide)
    | (show chars "selected_table" ≠ chars "success"; decide)
    | (show chars "generated_sql" ≠ chars "success"; decide)
    | (show chars "expected_table" ≠ chars "success"; decide)
    | (show chars "table_selection_is_correct" ≠ chars "success"; decide)
    | (show chars "timestamp" ≠ chars "success"; decide)

theorem rgProcessQuestion_cache_hit (env : RGEnv) (q : List Char) (sr : List SearchResult)
    (sel sql : List Char) (et : Option (List Char)) (tc : Option Bool) (now : List Char)
    (mem fileC : List (List Char × Record)) (r : Record)
    (hmem : clook (rgCacheKey q sql) mem = some r) :
    rgProcessQuestion env q sr sel sql et tc now mem fileC = (r, mem, fileC, 0) := by
  simp only [rgProcessQuestion]
  rw [hmem]

theorem rgProcessQuestion_success_path (env : RGEnv) (q : List Char) (sr : List SearchResult)
    (sel sql : List Char) (et : Option (List Char)) (tc : Option Bool) (now : List Char)
    (mem fileC : List (List Char × Record)) (rows : List Row) (resp : ModelResponse)
    (res0 : Record)
    (hmem : clook (rgCacheKey q sql) mem = none)
    (hfile : clook (rgCacheKey q sql) fileC = none)
    (hexec : env.exec sql = some rows) (hrows : rows.isEmpty = false)
    (hfun : env.funModel (createFunctionSelectionPrompt q rows) = .ok resp)
    (hpfc : processFunctionCalls env resp rows = .ok res0) :
    rgProcessQuestion env q sr sel sql et tc now mem fileC =
      (rgErrorRecord (chars "log_query() got an unexpected keyword argument executed_function")
         q now,
       cset (rgCacheKey q sql) (rgSuccessRecord res0 q sr sel sql et tc now) mem,
       cset (rgCacheKey q sql) (rgSuccessRecord res0 q sr sel sql et tc now) fileC, 1) := by
  have hbind : bindKwargs logQueryParams logResultsKwargNames =
      .error (chars "log_query() got an unexpected keyword argument executed_function") := by
    rfl
  simp only [rgProcessQuestion]
  rw [hmem, hfile, hexec]
  dsimp only
  rw [hrows]
  simp only [Bool.false_eq_true, if_false]
  rw [hfun]
  dsimp only
  rw [hpfc]
  dsimp only
  rw [hbind]

/-- C5.  On a full cache miss in which query execution, function
dispatch and answer composition all succeed,
`ResultGenerator.process_question` first persists the `success = true`
record to both cache tiers and then returns an error record with
`success = false`: `_log_results` calls `log_query` with the keyword
arguments `executed_function`, `function_result`, `final_answer`,
`output_file` and `timestamp`, which the `log_query` signature does not
accept, so the call raises `TypeError` inside the per-question `try`
block — after the cache write.  A subsequent call with the same
question and SQL returns the cached `success = true` record. -/
theorem C5_cache_success_then_log_error
    (env : RGEnv) (q : List Char) (sr : List SearchResult) (sel sql : List Char)
    (et : Option (List Char)) (tc : Option Bool) (now now2 : List Char)
    (mem fileC : List (List Char × Record)) (rows : List Row) (resp : ModelResponse)
    (res0 : Record)
    (hmem : clook (rgCacheKey q sql) mem = none)
    (hfile : clook (rgCacheKey q sql) fileC = none)
    (hexec : env.exec sql = some rows) (hrows : rows.isEmpty = false)
    (hfun : env.funModel (createFunctionSelectionPrompt q rows) = .ok resp)
    (hpfc : processFunctionCalls env resp rows = .ok res0) :
    bindKwargs logQueryParams logResultsKwargNames =
      .error (chars "log_query() got an unexpected keyword argument executed_function") ∧
    rgProcessQuestion env q sr sel sql et tc now mem fileC =
      (rgErrorRecord (chars "log_query() got an unexpected keyword argument executed_function")
         q now,
       cset (rgCacheKey q sql) (rgSuccessRecord res0 q sr sel sql et tc now) mem,
       cset (rgCacheKey q sql) (rgSuccessRecord res0 q sr sel sql et tc now) fileC, 1) ∧
    alook (chars "success") (rgSuccessRecord res0 q sr sel sql et tc now) = some (.fb true) ∧
    alook (chars "success")
      (rgErrorRecord (chars "log_query() got an unexpected keyword argument executed_function")
        q now) = some (.fb false) ∧
    rgProcessQuestion env q sr sel sql et tc now2
      (cset (rgCacheKey q sql) (rgSuccessRecord res0 q sr sel sql et tc now) mem)
      (cset (rgCacheKey q sql) (rgSuccessRecord res0 q sr sel sql et tc now) fileC) =
      (rgSuccessRecord res0 q sr sel sql et tc now,
       cset (rgCacheKey q sql) (rgSuccessRecord res0 q sr sel sql et tc now) mem,
       cset (rgCacheKey q sql) (rgSuccessRecord res0 q sr sel sql et tc now) fileC, 0) := by
  refine ⟨by rfl, ?_, ?_, alook_success_rgErrorRecord _ _ _, ?_⟩
  · exact rgProcessQuestion_success_path env q sr sel sql et tc now mem fileC rows resp res0
      hmem hfile hexec hrows hfun hpfc
  · rw [alook_success_rgSuccessRecord]
    exact processFunctionCalls_success env resp rows res0 hpfc
  · exact rgProcessQuestion_cache_hit env q sr sel sql et tc now2 _ _ _ (clook_cset_self _ _ _)

/-- C5 (witness): the theorem applied to the concrete all-success
oracle assignment on empty caches. -/
theorem C5_cache_success_then_log_error_witness :
    processFunctionCalls demoRGEnv ⟨none, chars "model text"⟩ [demoRow] = .ok demoRes0 ∧
    rgProcessQuestion demoRGEnv (chars "q") [] (chars "tbl") (chars "SELECT 1")
      none none (chars "T1") [] [] =
      (rgErrorRecord (chars "log_query() got an unexpected keyword argument executed_function")
         (chars "q") (chars "T1"),
       cset (rgCacheKey (chars "q") (chars "SELECT 1"))
         (rgSuccessRecord demoRes0 (chars "q") [] (chars "tbl") (chars "SELECT 1")
           none none (chars "T1")) [],
       cset (rgCacheKey (chars "q") (chars "SELECT 1"))
         (rgSuccessRecord demoRes0 (chars "q") [] (chars "tbl") (chars "SELECT 1")
           none none (chars "T1")) [], 1) :=
  ⟨rfl,
   (C5_cache_success_then_log_error demoRGEnv (chars "q") [] (chars "tbl") (chars "SELECT 1")
     none none (chars "T1") (chars "T2") [] [] [demoRow] ⟨none, chars "model text"⟩ demoRes0
     rfl rfl rfl rfl rfl rfl).2.1⟩

/-- C4.  The claim is false for the function-result operation: two
calls of `ResultGenerator.process_question` with the identical cache
key do perform only one underlying query execution, but their results
are not byte-identical — the first call returns the `TypeError` error
record while the second returns the cached `success = true` record. -/
theorem C4_counterexample_not_byte_identical :
    c4Run1.1 ≠ c4Run2.1 ∧ c4Run1.2.2.2 = 1 ∧ c4Run2.2.2.2 = 0 := by
  refine ⟨by decide, by decide, by decide⟩

/-- C4 (amended).  For the search-result, table-selection and
query-generation caches the claim holds: on a fresh key with a
successful underlying call, two invocations return identical results
and perform exactly one underlying call between them.  For the
function-result cache the underlying query still executes exactly once
across the two calls, but the returned records differ (first the error
record, then the cached success record). -/
theorem C4_cache_idempotence_amended :
    (∀ (api : List Char → List SearchResult) (q : List Char)
        (mem fileC : List (List Char × List SearchResult)),
      clook q mem = none → clook q fileC = none →
      getSearchResults api q mem fileC =
        (api q, cset q (api q) mem, cset q (api q) fileC, 1) ∧
      getSearchResults api q (cset q (api q) mem) (cset q (api q) fileC) =
        (api q, cset q (api q) mem, cset q (api q) fileC, 0)) ∧
    (∀ (model : List Char → Except (List Char) (List Char)) (q : List Char)
        (results : List SearchResult) (mem fileC : List (List Char × List Char))
        (txt : List Char),
      clook q mem = none → clook q fileC = none →
      model (createTableSelectionPrompt q results) = .ok txt →
      testerSelectTable model q results mem fileC =
        (some (strip txt), cset q (strip txt) mem, cset q (strip txt) fileC, 1) ∧
      testerSelectTable model q results (cset q (strip txt) mem) (cset q (strip txt) fileC) =
        (some (strip txt), cset q (strip txt) mem, cset q (strip txt) fileC, 0)) ∧
    (∀ (model : List Char → Except (List Char) (List Char)) (q ti : List Char)
        (mem fileC : List (List Char × List Char)) (txt : List Char),
      clook (genCacheKey q ti) mem = none → clook (genCacheKey q ti) fileC = none →
      model (createQueryPrompt q ti) = .ok txt →
      testerGenerateQuery model q ti mem fileC =
        (some (cleanSqlQuery txt), cset (genCacheKey q ti) (cleanSqlQuery txt) mem,
         cset (genCacheKey q ti) (cleanSqlQuery txt) fileC, 1) ∧
      testerGenerateQuery model q ti (cset (genCacheKey q ti) (cleanSqlQuery txt) mem)
          (cset (genCacheKey q ti) (cleanSqlQuery txt) fileC) =
        (some (cleanSqlQuery txt), cset (genCacheKey q ti) (cleanSqlQuery txt) mem,
         cset (genCacheKey q ti) (cleanSqlQuery txt) fileC, 0)) ∧
    (∀ (env : RGEnv) (q : List Char) (sr : List SearchResult) (sel sql : List Char)
        (et : Option (List Char)) (tc : Option Bool) (now : List Char)
        (mem fileC : List (List Char × Record)) (rows : List Row) (resp : ModelResponse)
        (res0 : Record),
      clook (rgCacheKey q sql) mem = none → clook (rgCacheKey q sql) fileC = none →
      env.exec sql = some rows → rows.isEmpty = false →
      env.funModel (createFunctionSelectionPrompt q rows) = .ok resp →
      processFunctionCalls env resp rows = .ok res0 →
      (rgProcessQuestion env q sr sel sql et tc now mem fileC).2.2.2 = 1 ∧
      (rgProcessQuestion env q sr sel sql et tc now
        (rgProcessQuestion env q sr sel sql et tc now mem fileC).2.1
        (rgProcessQuestion env q sr sel sql et tc now mem fileC).2.2.1).2.2.2 = 0 ∧
      (rgProcessQuestion env q sr sel sql et tc now mem fileC).1 ≠
        (rgProcessQuestion env q sr sel sql et tc now
          (rgProcessQuestion env q sr sel sql et tc now mem fileC).2.1
          (rgProcessQuestion env q sr sel sql et tc now mem fileC).2.2.1).1) := by
  refine ⟨?_, ?_, ?_, ?_⟩
  · intro api q mem fileC hmem hfile
    constructor
    · simp only [getSearchResults]
      rw [hmem, hfile]
    · simp only [getSearchResults]
      rw [clook_cset_self]
  · intro model q results mem fileC txt hmem hfile hmodel
    constructor
    · simp only [testerSelectTable]
      rw [hmem, hfile, hmodel]
    · simp only [testerSelectTable]
      rw [clook_cset_self]
  · intro model q ti mem fileC txt hmem hfile hmodel
    constructor
    · simp only [testerGenerateQuery]
      rw [hmem, hfile, hmodel]
    · simp only [testerGenerateQuery]
      rw [clook_cset_self]
  · intro env q sr sel sql et tc now mem fileC rows resp res0 hmem hfile hexec hrows hfun hpfc
    have h1 := rgProcessQuestion_success_path env q sr sel sql et tc now mem fileC rows resp res0
      hmem hfile hexec hrows hfun hpfc
    have h2 := rgProcessQuestion_cache_hit env q sr sel sql et tc now
      (cset (rgCacheKey q sql) (rgSuccessRecord res0 q sr sel sql et tc now) mem)
      (cset (rgCacheKey q sql) (rgSuccessRecord res0 q sr sel sql et tc now) fileC)
      (rgSuccessRecord res0 q sr sel sql et tc now) (clook_cset_self _ _ _)
    rw [h1]
    refine ⟨rfl, ?_, ?_⟩
    · simpa using congrArg (fun p => p.2.2.2) h2
    · intro heq
      have hfalse := alook_success_rgErrorRecord
        (chars "log_query() got an unexpected keyword argument executed_function") q now
      rw [show ((rgErrorRecord
          (chars "log_query() got an unexpected keyword argument executed_function") q now,
          cset (rgCacheKey q sql) (rgSuccessRecord res0 q sr sel sql et tc now) mem,
          cset (rgCacheKey q sql) (rgSuccessRecord res0 q sr sel sql et tc now) fileC,
          1) : Record × List (List Char × Record) × List (List Char × Record) × ℕ).1 =
          rgErrorRecord
            (chars "log_query() got an unexpected keyword argument executed_function") q now
        from rfl] at heq
      rw [heq] at hfalse
      rw [show (rgProcessQuestion env q sr sel sql et tc now
          (cset (rgCacheKey q sql) (rgSuccessRecord res0 q sr sel sql et tc now) mem)
          (cset (rgCacheKey q sql) (rgSuccessRecord res0 q sr sel sql et tc now) fileC)).1 =
          rgSuccessRecord res0 q sr sel sql et tc now from by rw [h2]] at hfalse
      rw [alook_success_rgSuccessRecord] at hfalse
      rw [processFunctionCalls_success env resp rows res0 hpfc] at hfalse
      exact absurd (Option.some_inj.mp hfalse) (by decide)

theorem batchWaitDurations_append (a b : List BatchEvent) :
    batchWaitDurations (a ++ b) = batchWaitDurations a ++ batchWaitDurations b :=
  List.filterMap_append a b _

theorem batchWaitDurations_replicate (n : ℕ) (rw : ℚ) :
    batchWaitDurations (List.replicate n (.requestSleep rw)) = [] := by
  induction n with
  | zero => rfl
  | succ n ih => simp [List.replicate_succ, batchWaitDurations, ih]

theorem requestSleepCount_append (a b : List BatchEvent) :
    requestSleepCount (a ++ b) = requestSleepCount a + requestSleepCount b := by
  simp [requestSleepCount, List.filter_append]

theorem requestSleepCount_replicate (n : ℕ) (rw : ℚ) :
    requestSleepCount (List.replicate n (.requestSleep rw)) = n := by
  induction n with
  | zero => rfl
  | succ n ih => simp [List.replicate_succ, requestSleepCount, ih]

theorem processChunk_events (env : QPEnv) (chunk : List (List Char))
    (ets : List Char → Option (List Char)) (rw : ℚ) (now : List Char) (st : QPState) :
    (processChunk env chunk ets rw now st).2.2.1 =
      List.replicate chunk.length (BatchEvent.requestSleep rw) := by
  induction chunk generalizing st with
  | nil => rfl
  | cons q rest ih =>
    rcases hqp : qpProcessQuestion env q (ets q) now st with ⟨r, st'⟩
    rcases hpc : processChunk env rest ets rw now st' with ⟨det, fld, evs, st''⟩
    have hevs : evs = List.replicate rest.length (BatchEvent.requestSleep rw) := by
      have h0 := ih st'
      rw [hpc] at h0
      exact h0
    simp only [processChunk, hqp, hpc]
    by_cases hc : recordSuccess r
    · rw [if_pos hc]
      simp [hevs, List.replicate_succ]
    · rw [if_neg hc]
      simp [hevs, List.replicate_succ]

theorem processBatchesGo_nil (env : QPEnv) (ets : List Char → Option (List Char)) (B : ℕ)
    (bw rw : ℚ) (N : ℕ) (now : List Char) (fuel i : ℕ) (st : QPState) :
    processBatchesGo env ets B bw rw N now fuel [] i st = ([], [], [], st) := by
  cases fuel <;> rfl

theorem processBatchesGo_waits (env : QPEnv) (ets : List Char → Option (List Char)) (B : ℕ)
    (bw rw : ℚ) (N : ℕ) (now : List Char) (hB : 0 < B) :
    ∀ (fuel : ℕ) (remaining : List (List Char)) (i : ℕ) (st : QPState),
      remaining.length ≤ fuel → i + remaining.length = N →
      batchWaitDurations (processBatchesGo env ets B bw rw N now fuel remaining i st).2.2.1 =
        (List.range ((remaining.length + B - 1) / B - 1)).map
          (fun k => max 0 (bw - env.elapsed (i + k * B))) := by
  intro fuel
  induction fuel with
  | zero =>
    intro remaining i st hle _
    have hnil : remaining = [] := List.length_eq_zero.mp (Nat.le_zero.mp hle)
    subst hnil
    rw [processBatchesGo_nil]
    rw [show (([] : List (List Char)).length + B - 1) / B = 0 from
      Nat.div_eq_of_lt (by simp only [List.length_nil]; omega)]
    rfl
  | succ fuel ih =>
    intro remaining i st hle hinv
    cases remaining with
    | nil =>
      rw [processBatchesGo_nil]
      rw [show (([] : List (List Char)).length + B - 1) / B = 0 from
      Nat.div_eq_of_lt (by simp only [List.length_nil]; omega)]
      rfl
    | cons q rest =>
      rcases hpc : processChunk env ((q :: rest).take B) ets rw now st with ⟨det, fld, evs, st'⟩
      rcases hgo : processBatchesGo env ets B bw rw N now fuel ((q :: rest).drop B) (i + B) st'
        with ⟨det2, fld2, evs2, st''⟩
      have hevs : evs = List.replicate ((q :: rest).take B).length (BatchEvent.requestSleep rw) := by
        have h0 := processChunk_events env ((q :: rest).take B) ets rw now st
        rw [hpc] at h0
        exact h0
      have hlen : (q :: rest).length = rest.length + 1 := rfl
      simp only [processBatchesGo, hpc, hgo]
      rw [batchWaitDurations_append, batchWaitDurations_append, hevs,
        batchWaitDurations_replicate, List.nil_append]
      by_cases hib : i + B < N
      · rw [if_pos hib]
        have hBR : B < rest.length + 1 := by
          simp only [hlen] at hinv
          omega
        have hdlen : ((q :: rest).drop B).length = rest.length + 1 - B := by
          simp [List.length_drop]
        have hlen2 : ((q :: rest).drop B).length ≤ fuel := by
          rw [hdlen]
          simp only [hlen] at hle
          omega
        have hinv2 : (i + B) + ((q :: rest).drop B).length = N := by
          rw [hdlen]
          simp only [hlen] at hinv
          omega
        have ih2 := ih ((q :: rest).drop B) (i + B) st' hlen2 hinv2
        rw [hgo] at ih2
        simp only at ih2
        rw [ih2, hdlen]
        simp only [List.length_cons]
        have harith : ((rest.length + 1) + B - 1) / B - 1 =
            (((rest.length + 1 - B) + B - 1) / B - 1) + 1 := by
          have h1 : (rest.length + 1) + B - 1 = ((rest.length + 1 - B) + B - 1) + B := by omega
          rw [h1, Nat.add_div_right _ hB]
          have h2 : 1 ≤ ((rest.length + 1 - B) + B - 1) / B := by
            rw [Nat.le_div_iff_mul_le hB]
            omega
          omega
        rw [harith, List.range_succ_eq_map, List.map_cons, List.map_map]
        have hbw : batchWaitDurations [BatchEvent.batchWait (max 0 (bw - env.elapsed i))] =
            [max 0 (bw - env.elapsed i)] := rfl
        rw [hbw, List.singleton_append]
        congr 1
        · simp
        · apply List.map_congr_left
          intro k _
          have hk : i + (k + 1) * B = i + B + k * B := by ring
          simp [Function.comp, hk]
      · rw [if_neg hib]
        have hdrop : (q :: rest).drop B = [] := by
          apply List.drop_eq_nil_of_le
          simp only [hlen] at hinv ⊢
          omega
        rw [hdrop, processBatchesGo_nil] at hgo
        have hevs2 : evs2 = [] := by
          have := congrArg (fun p => p.2.2.1) hgo
          simpa using this.symm
        rw [hevs2]
        have hone : ((rest.length + 1) + B - 1) / B = 1 := by
          apply Nat.div_eq_of_lt_le
          · omega
          · simp only [hlen] at hinv
            omega
        simp only [List.length_cons]
        rw [hone]
        rfl

theorem processBatchesGo_sleeps (env : QPEnv) (ets : List Char → Option (List Char)) (B : ℕ)
    (bw rw : ℚ) (N : ℕ) (now : List Char) (hB : 0 < B) :
    ∀ (fuel : ℕ) (remaining : List (List Char)) (i : ℕ) (st : QPState),
      remaining.length ≤ fuel →
      requestSleepCount (processBatchesGo env ets B bw rw N now fuel remaining i st).2.2.1 =
        remaining.length := by
  intro fuel
  induction fuel with
  | zero =>
    intro remaining i st hle
    have hnil : remaining = [] := List.length_eq_zero.mp (Nat.le_zero.mp hle)
    subst hnil
    rw [processBatchesGo_nil]
    rfl
  | succ fuel ih =>
    intro remaining i st hle
    cases remaining with
    | nil =>
      rw [processBatchesGo_nil]
      rfl
    | cons q rest =>
      rcases hpc : processChunk env ((q :: rest).take B) ets rw now st with ⟨det, fld, evs, st'⟩
      rcases hgo : processBatchesGo env ets B bw rw N now fuel ((q :: rest).drop B) (i + B) st'
        with ⟨det2, fld2, evs2, st''⟩
      have hevs : evs = List.replicate ((q :: rest).take B).length (BatchEvent.requestSleep rw) := by
        have h0 := processChunk_events env ((q :: rest).take B) ets rw now st
        rw [hpc] at h0
        exact h0
      have ih2 := ih ((q :: rest).drop B) (i + B) st'
        (by simp only [List.length_drop, List.length_cons] at hle ⊢; omega)
      rw [hgo] at ih2
      simp only at ih2
      simp only [processBatchesGo, hpc, hgo]
      rw [requestSleepCount_append, requestSleepCount_append, hevs, requestSleepCount_replicate]
      have hwz : requestSleepCount (if i + B < N
          then [BatchEvent.batchWait (max 0 (bw - env.elapsed i))] else []) = 0 := by
        by_cases hib : i + B < N
        · rw [if_pos hib]; rfl
        · rw [if_neg hib]; rfl
      rw [hwz, ih2]
      simp [List.length_take, List.length_drop]
      omega

/-- C9.  For every question list of length `N` and positive batch size
`B`, the batch driver issues the inter-chunk wait exactly
`ceil(N/B) - 1` times (here `(N + B - 1) / B - 1` in natural division),
each such wait sleeping `max(0, batch_wait - elapsed)` for its chunk's
observed elapsed time, and the fixed per-request sleep fires exactly
`N` times, once after each processed question. -/
theorem C9_batch_driver (env : QPEnv) (qs : List (List Char))
    (ets : List Char → Option (List Char)) (B : ℕ) (bw rw : ℚ) (now : List Char)
    (st : QPState) (hB : 0 < B) :
    batchWaitDurations (processQuestions env qs ets B bw rw now st).2.2.1 =
      (List.range ((qs.length + B - 1) / B - 1)).map
        (fun k => max 0 (bw - env.elapsed (k * B))) ∧
    requestSleepCount (processQuestions env qs ets B bw rw now st).2.2.1 = qs.length := by
  constructor
  · have h := processBatchesGo_waits env ets B bw rw qs.length now hB qs.length qs 0 st
      (Nat.le_refl _) (Nat.zero_add _)
    rw [show processQuestions env qs ets B bw rw now st =
      processBatchesGo env ets B bw rw qs.length now qs.length qs 0 st from rfl]
    rw [h]
    apply List.map_congr_left
    intro k _
    simp
  · exact processBatchesGo_sleeps env ets B bw rw qs.length now hB qs.length qs 0 st
      (Nat.le_refl _)

/-- C9 (witness): three questions in batches of two — one inter-chunk
wait, three per-request sleeps. -/
theorem C9_batch_driver_witness :
    0 < 2 ∧
    batchWaitDurations (processQuestions demoQPEnvErr [chars "q1", chars "q2", chars "q3"]
        (fun _ => none) 2 60 3 (chars "T") demoQPState).2.2.1 =
      (List.range (([chars "q1", chars "q2", chars "q3"].length + 2 - 1) / 2 - 1)).map
        (fun k => max 0 (60 - demoQPEnvErr.elapsed (k * 2))) ∧
    requestSleepCount (processQuestions demoQPEnvErr [chars "q1", chars "q2", chars "q3"]
        (fun _ => none) 2 60 3 (chars "T") demoQPState).2.2.1 = 3 :=
  ⟨by decide,
   (C9_batch_driver demoQPEnvErr [chars "q1", chars "q2", chars "q3"] (fun _ => none) 2 60 3
     (chars "T") demoQPState (by decide)).1,
   (C9_batch_driver demoQPEnvErr [chars "q1", chars "q2", chars "q3"] (fun _ => none) 2 60 3
     (chars "T") demoQPState (by decide)).2⟩

/-- C4 (witness): the amended search-result idempotence clause applied
to a concrete search oracle on empty caches. -/
theorem C4_cache_idempotence_witness :
    clook (chars "q") ([] : List (List Char × List SearchResult)) = none ∧
    getSearchResults (fun _ => [⟨chars "T", chars "C"⟩]) (chars "q") [] [] =
      ([⟨chars "T", chars "C"⟩],
       cset (chars "q") [⟨chars "T", chars "C"⟩] [],
       cset (chars "q") [⟨chars "T", chars "C"⟩] [], 1) :=
  ⟨rfl,
   (C4_cache_idempotence_amended.1 (fun _ => [⟨chars "T", chars "C"⟩]) (chars "q") [] []
     rfl rfl).1⟩



/-!
C8: error handling of `QueryProcessor.process_question` and the batch
loop of `process_questions`.
-/

theorem aupdate_rgErrorRecord (e q now q2 now2 : List Char) (sr : List SearchResult)
    (sel sql : List Char) (et : Option (List Char)) :
    aupdate (rgErrorRecord e q now)
      [(chars "question", .fs q2),
       (chars "search_results", .fresults sr),
       (chars "selected_table", .fs sel),
       (chars "generated_sql", .fs sql),
       (chars "expected_table", optStrVal et),
       (chars "timestamp", .fs now2)] =
      qpMergedErrorRecord e q2 now2 sr sel sql et := rfl

theorem qp_search_raised (env : QPEnv) (q : List Char) (et : Option (List Char))
    (now : List Char) (st : QPState) (e : List Char) (h : env.search q = .error e) :
    qpProcessQuestion env q et now st = (qpErrorRecord q e now, st) := by
  simp only [qpProcessQuestion]
  rw [h]

theorem qp_no_results (env : QPEnv) (q : List Char) (et : Option (List Char))
    (now : List Char) (st : QPState) (h : env.search q = .ok []) :
    qpProcessQuestion env q et now st =
      (qpErrorRecord q (chars "検索結果が取得できませんでした") now, st) := by
  simp only [qpProcessQuestion]
  rw [h]
  rfl

theorem qp_select_failed (env : QPEnv) (q : List Char) (et : Option (List Char))
    (now : List Char) (st : QPState) (rs : List SearchResult)
    (hs : env.search q = .ok rs) (hne : rs.isEmpty = false)
    (hsel : tsSelectTable env.selectModel q rs = none) :
    qpProcessQuestion env q et now st =
      (qpErrorRecord q (chars "テーブル選択に失敗しました") now, st) := by
  simp only [qpProcessQuestion]
  rw [hs]
  dsimp only
  rw [hne]
  simp only [Bool.false_eq_true, if_false]
  rw [hsel]

theorem qp_info_missing (env : QPEnv) (q : List Char) (et : Option (List Char))
    (now : List Char) (st : QPState) (rs : List SearchResult) (sel : List Char)
    (hs : env.search q = .ok rs) (hne : rs.isEmpty = false)
    (hsel : tsSelectTable env.selectModel q rs = some sel)
    (hseltru : pyTruthyStr sel = true)
    (hti : getTableInfo rs sel = none) :
    qpProcessQuestion env q et now st =
      (qpErrorRecord q (chars "テーブル情報の取得に失敗しました") now, st) := by
  simp only [qpProcessQuestion]
  rw [hs]
  dsimp only
  rw [hne]
  simp only [Bool.false_eq_true, if_false]
  rw [hsel]
  dsimp only
  rw [hseltru]
  simp only [Bool.not_true, Bool.false_eq_true, if_false]
  rw [hti]

theorem qp_gen_failed (env : QPEnv) (q : List Char) (et : Option (List Char))
    (now : List Char) (st : QPState) (rs : List SearchResult) (sel ti0 : List Char)
    (gm gf : List (List Char × List Char)) (n : ℕ)
    (hs : env.search q = .ok rs) (hne : rs.isEmpty = false)
    (hsel : tsSelectTable env.selectModel q rs = some sel)
    (hseltru : pyTruthyStr sel = true)
    (hti : getTableInfo rs sel = some ti0) (htitru : pyTruthyStr ti0 = true)
    (hgen : testerGenerateQuery env.genModel q
      (replaceAll sel (chars "test_dataset." ++ sel) ti0) st.genMem st.genFile =
      (none, gm, gf, n)) :
    qpProcessQuestion env q et now st =
      (qpErrorRecord q (chars "SQLクエリの生成に失敗しました") now,
       ⟨gm, gf, st.rgMem, st.rgFile⟩) := by
  simp only [qpProcessQuestion]
  rw [hs]
  dsimp only
  rw [hne]
  simp only [Bool.false_eq_true, if_false]
  rw [hsel]
  dsimp only
  rw [hseltru]
  simp only [Bool.not_true, Bool.false_eq_true, if_false]
  rw [hti]
  dsimp only
  rw [htitru]
  simp only [Bool.not_true, Bool.false_eq_true, if_false]
  rw [hgen]

theorem qp_rg_error_merged (env : QPEnv) (q : List Char) (et : Option (List Char))
    (now : List Char) (st : QPState) (rs : List SearchResult) (sel ti0 sql : List Char)
    (gm gf : List (List Char × List Char)) (n : ℕ) (e2 : List Char)
    (rm rf : List (List Char × Record)) (m : ℕ)
    (hs : env.search q = .ok rs) (hne : rs.isEmpty = false)
    (hsel : tsSelectTable env.selectModel q rs = some sel)
    (hseltru : pyTruthyStr sel = true)
    (hti : getTableInfo rs sel = some ti0) (htitru : pyTruthyStr ti0 = true)
    (hgen : testerGenerateQuery env.genModel q
      (replaceAll sel (chars "test_dataset." ++ sel) ti0) st.genMem st.genFile =
      (some sql, gm, gf, n))
    (hsqltru : pyTruthyStr sql = true)
    (hrg : rgProcessQuestion env.rg q rs (chars "test_dataset." ++ sel) sql et
      (tsCorrectOf sel et) now st.rgMem st.rgFile = (rgErrorRecord e2 q now, rm, rf, m)) :
    qpProcessQuestion env q et now st =
      (qpMergedErrorRecord e2 q now rs sel sql et, ⟨gm, gf, rm, rf⟩) := by
  simp only [qpProcessQuestion]
  rw [hs]
  dsimp only
  rw [hne]
  simp only [Bool.false_eq_true, if_false]
  rw [hsel]
  dsimp only
  rw [hseltru]
  simp only [Bool.not_true, Bool.false_eq_true, if_false]
  rw [hti]
  dsimp only
  rw [htitru]
  simp only [Bool.not_true, Bool.false_eq_true, if_false]
  rw [hgen]
  dsimp only
  rw [hsqltru]
  simp only [Bool.not_true, Bool.false_eq_true, if_false]
  rw [hrg]
  dsimp only
  rw [aupdate_rgErrorRecord]

theorem processChunk_partition (env : QPEnv) (ets : List Char → Option (List Char))
    (rw : ℚ) (now : List Char) :
    ∀ (chunk : List (List Char)) (st : QPState),
      (processChunk env chunk ets rw now st).1.length +
        (processChunk env chunk ets rw now st).2.1.length = chunk.length ∧
      (∀ r ∈ (processChunk env chunk ets rw now st).1, recordSuccess r = true) ∧
      (∀ r ∈ (processChunk env chunk ets rw now st).2.1, recordSuccess r = false) := by
  intro chunk
  induction chunk with
  | nil =>
    intro st
    exact ⟨rfl, by simp [processChunk], by simp [processChunk]⟩
  | cons q rest ih =>
    intro st
    rcases hqp : qpProcessQuestion env q (ets q) now st with ⟨r, st'⟩
    rcases hpc : processChunk env rest ets rw now st' with ⟨det, fld, evs, st''⟩
    have h0 := ih st'
    rw [hpc] at h0
    simp only [processChunk, hqp, hpc]
    by_cases hc : recordSuccess r
    · rw [if_pos hc]
      refine ⟨?_, ?_, h0.2.2⟩
      · have h1 := h0.1
        simp only [List.length_cons] at h1 ⊢
        omega
      · intro r' hr'
        rcases List.mem_cons.mp hr' with h | h
        · rw [h]; exact hc
        · exact h0.2.1 r' h
    · rw [if_neg hc]
      refine ⟨?_, h0.2.1, ?_⟩
      · have h1 := h0.1
        simp only [List.length_cons] at h1 ⊢
        omega
      · intro r' hr'
        rcases List.mem_cons.mp hr' with h | h
        · rw [h]; exact Bool.not_eq_true _ ▸ (by simpa using hc)
        · exact h0.2.2 r' h

theorem processBatchesGo_partition (env : QPEnv) (ets : List Char → Option (List Char))
    (B : ℕ) (bw rw : ℚ) (N : ℕ) (now : List Char) (hB : 0 < B) :
    ∀ (fuel : ℕ) (remaining : List (List Char)) (i : ℕ) (st : QPState),
      remaining.length ≤ fuel →
      (processBatchesGo env ets B bw rw N now fuel remaining i st).1.length +
        (processBatchesGo env ets B bw rw N now fuel remaining i st).2.1.length =
        remaining.length ∧
      (∀ r ∈ (processBatchesGo env ets B bw rw N now fuel remaining i st).1,
        recordSuccess r = true) ∧
      (∀ r ∈ (processBatchesGo env ets B bw rw N now fuel remaining i st).2.1,
        recordSuccess r = false) := by
  intro fuel
  induction fuel with
  | zero =>
    intro remaining i st hle
    have hnil : remaining = [] := List.length_eq_zero.mp (Nat.le_zero.mp hle)
    subst hnil
    rw [processBatchesGo_nil]
    exact ⟨rfl, by simp, by simp⟩
  | succ fuel ih =>
    intro remaining i st hle
    cases remaining with
    | nil =>
      rw [processBatchesGo_nil]
      exact ⟨rfl, by simp, by simp⟩
    | cons q rest =>
      rcases hpc : processChunk env ((q :: rest).take B) ets rw now st with ⟨det, fld, evs, st'⟩
      rcases hgo : processBatchesGo env ets B bw rw N now fuel ((q :: rest).drop B) (i + B) st'
        with ⟨det2, fld2, evs2, st''⟩
      have hchunk := processChunk_partition env ets rw now ((q :: rest).take B) st
      rw [hpc] at hchunk
      have hrec := ih ((q :: rest).drop B) (i + B) st'
        (by simp only [List.length_drop, List.length_cons] at hle ⊢; omega)
      rw [hgo] at hrec
      simp only [processBatchesGo, hpc, hgo]
      refine ⟨?_, ?_, ?_⟩
      · have h1 := hchunk.1
        have h2 := hrec.1
        simp only [List.length_append, List.length_take, List.length_drop,
          List.length_cons] at h1 h2 ⊢
        omega
      · intro r hr
        rcases List.mem_append.mp hr with h | h
        · exact hchunk.2.1 r h
        · exact hrec.2.1 r h
      · intro r hr
        rcases List.mem_append.mp hr with h | h
        · exact hchunk.2.2 r h
        · exact hrec.2.2 r h

/-- C8 (counterexample): when search, table selection and SQL generation
succeed but the warehouse execution fails, the record returned by
`QueryProcessor.process_question` does not contain exactly the four
claimed fields: the `result.update` at the end of the success-path `try`
block has already merged `search_results`, `selected_table`,
`generated_sql` and `expected_table` into the error record coming out of
`ResultGenerator.process_question`, for eight keys in all. -/
theorem C8_counterexample_extra_fields :
    ((qpProcessQuestion demoQPEnvExecFail (chars "q") none (chars "T") demoQPState).1.map
        Prod.fst =
      [chars "success", chars "error", chars "question", chars "timestamp",
       chars "search_results", chars "selected_table", chars "generated_sql",
       chars "expected_table"]) ∧
    ((qpProcessQuestion demoQPEnvExecFail (chars "q") none (chars "T") demoQPState).1.map
        Prod.fst ≠
      [chars "success", chars "question", chars "error", chars "timestamp"]) := by
  refine ⟨by decide, by decide⟩

/-- C8 (amended).  `QueryProcessor.process_question` never propagates an
exception.  For the early failure causes (search raised, empty search
results, failed table selection, table info not found, failed SQL
generation) it returns exactly the four-field record
`{success: false, question, error, timestamp}` (the generation failure
additionally leaves the query-generation caches updated).  For a failure
inside `ResultGenerator.process_question` — failed query execution, an
unknown function sub-mode, or any other exception of the inner stage —
the returned record is NOT the four-field record: the `result.update`
call merges `search_results`, `selected_table`, `generated_sql` and
`expected_table` into the inner error record, for eight keys in all; an
unknown `analysis_type` surfaces with its message wrapped in
`Error in _process_function_calls:`.  The batch loop partitions the
records one-per-question between `details` and `failed_questions` by the
success flag and continues through the whole question list. -/
theorem C8_error_handling_amended :
    (∀ (env : QPEnv) (q : List Char) (et : Option (List Char)) (now : List Char)
        (st : QPState) (e : List Char), env.search q = .error e →
      qpProcessQuestion env q et now st = (qpErrorRecord q e now, st)) ∧
    (∀ (env : QPEnv) (q : List Char) (et : Option (List Char)) (now : List Char)
        (st : QPState), env.search q = .ok [] →
      qpProcessQuestion env q et now st =
        (qpErrorRecord q (chars "検索結果が取得できませんでした") now, st)) ∧
    (∀ (env : QPEnv) (q : List Char) (et : Option (List Char)) (now : List Char)
        (st : QPState) (rs : List SearchResult),
        env.search q = .ok rs → rs.isEmpty = false →
        tsSelectTable env.selectModel q rs = none →
      qpProcessQuestion env q et now st =
        (qpErrorRecord q (chars "テーブル選択に失敗しました") now, st)) ∧
    (∀ (env : QPEnv) (q : List Char) (et : Option (List Char)) (now : List Char)
        (st : QPState) (rs : List SearchResult) (sel : List Char),
        env.search q = .ok rs → rs.isEmpty = false →
        tsSelectTable env.selectModel q rs = some sel → pyTruthyStr sel = true →
        getTableInfo rs sel = none →
      qpProcessQuestion env q et now st =
        (qpErrorRecord q (chars "テーブル情報の取得に失敗しました") now, st)) ∧
    (∀ (env : QPEnv) (q : List Char) (et : Option (List Char)) (now : List Char)
        (st : QPState) (rs : List SearchResult) (sel ti0 : List Char)
        (gm gf : List (List Char × List Char)) (n : ℕ),
        env.search q = .ok rs → rs.isEmpty = false →
        tsSelectTable env.selectModel q rs = some sel → pyTruthyStr sel = true →
        getTableInfo rs sel = some ti0 → pyTruthyStr ti0 = true →
        testerGenerateQuery env.genModel q
          (replaceAll sel (chars "test_dataset." ++ sel) ti0) st.genMem st.genFile =
          (none, gm, gf, n) →
      qpProcessQuestion env q et now st =
        (qpErrorRecord q (chars "SQLクエリの生成に失敗しました") now,
         ⟨gm, gf, st.rgMem, st.rgFile⟩)) ∧
    (∀ (env : QPEnv) (q : List Char) (et : Option (List Char)) (now : List Char)
        (st : QPState) (rs : List SearchResult) (sel ti0 sql : List Char)
        (gm gf : List (List Char × List Char)) (n : ℕ) (e2 : List Char)
        (rm rf : List (List Char × Record)) (m : ℕ),
        env.search q = .ok rs → rs.isEmpty = false →
        tsSelectTable env.selectModel q rs = some sel → pyTruthyStr sel = true →
        getTableInfo rs sel = some ti0 → pyTruthyStr ti0 = true →
        testerGenerateQuery env.genModel q
          (replaceAll sel (chars "test_dataset." ++ sel) ti0) st.genMem st.genFile =
          (some sql, gm, gf, n) →
        pyTruthyStr sql = true →
        rgProcessQuestion env.rg q rs (chars "test_dataset." ++ sel) sql et
          (tsCorrectOf sel et) now st.rgMem st.rgFile = (rgErrorRecord e2 q now, rm, rf, m) →
      qpProcessQuestion env q et now st =
        (qpMergedErrorRecord e2 q now rs sel sql et, ⟨gm, gf, rm, rf⟩)) ∧
    ((qpProcessQuestion demoQPEnvBadMode (chars "q") none (chars "T") demoQPState).1 =
      qpMergedErrorRecord
        (chars "Error in _process_function_calls: Unknown analysis type: median")
        (chars "q") (chars "T") [⟨chars "tbl", demoContent⟩] (chars "invtbl")
        (chars "SELECT 1") none) ∧
    (∀ (env : QPEnv) (qs : List (List Char)) (ets : List Char → Option (List Char))
        (B : ℕ) (bw rw : ℚ) (now : List Char) (st : QPState), 0 < B →
      (processQuestions env qs ets B bw rw now st).1.length +
        (processQuestions env qs ets B bw rw now st).2.1.length = qs.length ∧
      (∀ r ∈ (processQuestions env qs ets B bw rw now st).1, recordSuccess r = true) ∧
      (∀ r ∈ (processQuestions env qs ets B bw rw now st).2.1, recordSuccess r = false)) := by
  refine ⟨qp_search_raised, qp_no_results, qp_select_failed, qp_info_missing,
    qp_gen_failed, qp_rg_error_merged, by decide, ?_⟩
  intro env qs ets B bw rw now st hB
  exact processBatchesGo_partition env ets B bw rw qs.length now hB qs.length qs 0 st
    (Nat.le_refl _)

/-- C8 (witness): the theorem applied at concrete oracle assignments —
the raising search oracle, the exec-failure pipeline, and a two-question
batch run. -/
theorem C8_error_handling_witness :
    (qpProcessQuestion demoQPEnvErr (chars "qq") none (chars "T") demoQPState =
      (qpErrorRecord (chars "qq") (chars "boom") (chars "T"), demoQPState)) ∧
    (qpProcessQuestion demoQPEnvExecFail (chars "q") none (chars "T") demoQPState =
      (qpMergedErrorRecord (chars "Failed to execute query") (chars "q") (chars "T")
        [⟨chars "tbl", demoContent⟩] (chars "invtbl") (chars "SELECT 1") none,
       ⟨[(demoGenKey, chars "SELECT 1")], [(demoGenKey, chars "SELECT 1")], [], []⟩)) ∧
    ((processQuestions demoQPEnvErr [chars "a", chars "b"] (fun _ => none) 2 0 0
        (chars "T") demoQPState).1.length +
      (processQuestions demoQPEnvErr [chars "a", chars "b"] (fun _ => none) 2 0 0
        (chars "T") demoQPState).2.1.length = [chars "a", chars "b"].length ∧
      (∀ r ∈ (processQuestions demoQPEnvErr [chars "a", chars "b"] (fun _ => none) 2 0 0
        (chars "T") demoQPState).1, recordSuccess r = true) ∧
      (∀ r ∈ (processQuestions demoQPEnvErr [chars "a", chars "b"] (fun _ => none) 2 0 0
        (chars "T") demoQPState).2.1, recordSuccess r = false)) :=
  ⟨C8_error_handling_amended.1 demoQPEnvErr (chars "qq") none (chars "T") demoQPState
     (chars "boom") rfl,
   C8_error_handling_amended.2.2.2.2.2.1 demoQPEnvExecFail (chars "q") none (chars "T")
     demoQPState [⟨chars "tbl", demoContent⟩] (chars "invtbl") demoContent
     (chars "SELECT 1") [(demoGenKey, chars "SELECT 1")] [(demoGenKey, chars "SELECT 1")] 1
     (chars "Failed to execute query") [] [] 1 rfl rfl rfl rfl rfl rfl rfl rfl rfl,
   C8_error_handling_amended.2.2.2.2.2.2.2 demoQPEnvErr [chars "a", chars "b"]
     (fun _ => none) 2 0 0 (chars "T") demoQPState (by decide)⟩

/-!
C7: round-trip of `format_content` on well-formed blobs.  Support
lemmas about `strip`, `replaceAll` and `splitChar` on the structured
blob.
-/

theorem replaceAllGo_of_not_contains (pat rep : List Char) :
    ∀ (fuel : ℕ) (s : List Char), containsSub pat s = false →
      replaceAllGo pat rep fuel s = s := by
  intro fuel
  induction fuel with
  | zero => intro s _; rfl
  | succ fuel ih =>
    intro s h
    cases s with
    | nil => rfl
    | cons x rest =>
      rw [containsSub_cons] at h
      have h1 : pat.isPrefixOf (x :: rest) = false := by
        cases hx : pat.isPrefixOf (x :: rest) with
        | true => rw [hx] at h; simp at h
        | false => rfl
      have h2 : containsSub pat rest = false := by
        cases hx : containsSub pat rest with
        | true => rw [hx] at h; simp at h
        | false => rfl
      simp only [replaceAllGo, h1]
      rw [if_neg (by simp)]
      rw [ih rest h2]

theorem replaceAll_of_not_contains (pat rep s : List Char)
    (h : containsSub pat s = false) : replaceAll pat rep s = s :=
  replaceAllGo_of_not_contains pat rep s.length s h

theorem replaceAll_prefix_erase (pat s : List Char) (hp : pat ≠ [])
    (h : containsSub pat s = false) : replaceAll pat [] (pat ++ s) = s := by
  obtain ⟨x, pat', rfl⟩ : ∃ x pat', pat = x :: pat' := by
    cases pat with
    | nil => exact absurd rfl hp
    | cons x pat' => exact ⟨x, pat', rfl⟩
  unfold replaceAll
  have hlen : ((x :: pat') ++ s).length = (pat' ++ s).length + 1 := by simp
  rw [hlen]
  show replaceAllGo (x :: pat') [] ((pat' ++ s).length + 1) (x :: (pat' ++ s)) = s
  rw [replaceAllGo]
  rw [if_pos ⟨by simp, List.isPrefixOf_iff_prefix.mpr (by exact ⟨s, by simp⟩)⟩]
  have hdrop : (x :: (pat' ++ s)).drop (x :: pat').length = s := by
    show ((x :: pat') ++ s).drop (x :: pat').length = s
    exact List.drop_left _ _
  rw [hdrop, replaceAllGo_of_not_contains _ _ _ _ h]
  rfl

theorem dropWhile_isSpace_of_strip (X : List Char) (h : strip X = X) :
    X.dropWhile isSpace = X := by
  have h1 : X.dropWhile isSpace <:+ X := List.dropWhile_suffix _
  have h2 : strip X <+: X.dropWhile isSpace := by
    unfold strip
    rw [← List.reverse_suffix, List.reverse_reverse]
    exact List.dropWhile_suffix _
  have hlen : (X.dropWhile isSpace).length = X.length := by
    have l1 := h2.length_le
    rw [h] at l1
    exact Nat.le_antisymm h1.length_le l1
  exact h1.eq_of_length hlen

theorem reverse_dropWhile_of_strip (X : List Char) (h : strip X = X) :
    X.reverse.dropWhile isSpace = X.reverse := by
  have h0 : strip X = (X.reverse.dropWhile isSpace).reverse := by
    unfold strip
    rw [dropWhile_isSpace_of_strip X h]
  have := h0.symm.trans h
  calc X.reverse.dropWhile isSpace
      = ((X.reverse.dropWhile isSpace).reverse).reverse := by rw [List.reverse_reverse]
    _ = X.reverse := by rw [this]

theorem head_not_space_of_strip (X : List Char) (ch : Char) (X' : List Char)
    (h : strip X = X) (he : X = ch :: X') : isSpace ch = false := by
  have hd := dropWhile_isSpace_of_strip X h
  subst he
  rw [List.dropWhile_cons] at hd
  by_cases hc : isSpace ch = true
  · rw [if_pos hc] at hd
    have : (X'.dropWhile isSpace).length ≤ X'.length := (List.dropWhile_suffix _).length_le
    rw [hd] at this
    simp at this
  · simpa using hc

theorem getLast_not_space_of_strip (X : List Char) (x : Char)
    (h : strip X = X) (he : X.getLast? = some x) : isSpace x = false := by
  have hr : X.reverse.head? = some x := by rw [List.head?_reverse]; exact he
  obtain ⟨Y, hY⟩ : ∃ Y, X.reverse = x :: Y := by
    cases hrev : X.reverse with
    | nil => rw [hrev] at hr; simp at hr
    | cons a Y =>
      rw [hrev] at hr
      simp only [List.head?_cons, Option.some_inj] at hr
      exact ⟨Y, by rw [hr]⟩
  have hd := reverse_dropWhile_of_strip X h
  rw [hY, List.dropWhile_cons] at hd
  by_cases hc : isSpace x = true
  · rw [if_pos hc] at hd
    have : (Y.dropWhile isSpace).length ≤ Y.length := (List.dropWhile_suffix _).length_le
    rw [hd] at this
    simp at this
  · simpa using hc

theorem strip_cons_space (w : List Char) : strip (' ' :: w) = strip w := by
  unfold strip
  rw [List.dropWhile_cons]
  rw [if_pos (by decide)]

theorem strip_append_space (w : List Char) : strip (w ++ [' ']) = strip w := by
  unfold strip
  rw [List.dropWhile_append]
  by_cases h : (w.dropWhile isSpace).isEmpty = true
  · rw [if_pos h]
    have hw : w.dropWhile isSpace = [] := by simpa using h
    rw [hw]
    rw [show List.dropWhile isSpace [' '] = [] from rfl]
  · rw [if_neg h]
    rw [List.reverse_append]
    show ((List.reverse [' '] ++ (w.dropWhile isSpace).reverse).dropWhile isSpace).reverse =
      ((w.dropWhile isSpace).reverse.dropWhile isSpace).reverse
    rw [show List.reverse [' '] = [' '] from rfl]
    rw [show ([' '] ++ (w.dropWhile isSpace).reverse) = ' ' :: (w.dropWhile isSpace).reverse
      from rfl]
    rw [List.dropWhile_cons, if_pos (by decide)]

theorem strip_eq_self_of_ends (X : List Char) (ch x : Char)
    (hh : X.head? = some ch) (hch : isSpace ch = false)
    (hl : X.getLast? = some x) (hx : isSpace x = false) : strip X = X := by
  obtain ⟨X', rfl⟩ : ∃ X', X = ch :: X' := by
    cases hc : X with
    | nil => rw [hc] at hh; simp at hh
    | cons a Y =>
      rw [hc] at hh
      simp only [List.head?_cons, Option.some_inj] at hh
      exact ⟨Y, by rw [hh]⟩
  obtain ⟨Z, hZ⟩ : ∃ Z, (ch :: X').reverse = x :: Z := by
    have hr : (ch :: X').reverse.head? = some x := by rw [List.head?_reverse]; exact hl
    cases hrev : (ch :: X').reverse with
    | nil => rw [hrev] at hr; simp at hr
    | cons a Y =>
      rw [hrev] at hr
      simp only [List.head?_cons, Option.some_inj] at hr
      exact ⟨Y, by rw [hr]⟩
  unfold strip
  rw [List.dropWhile_cons, if_neg (by simp [hch])]
  rw [hZ, List.dropWhile_cons, if_neg (by simp [hx]), ← hZ, List.reverse_reverse]

theorem containsSub_mono (pat sub s : List Char) (h : containsSub pat sub = true)
    (hs : sub <:+: s) : containsSub pat s = true :=
  (containsSub_infix_iff pat s).mpr (((containsSub_infix_iff pat sub).mp h).trans hs)

theorem splitChar_of_no_sep (sep : Char) (l : List Char) (h : ∀ x ∈ l, x ≠ sep) :
    splitChar sep l = [l] := by
  induction l with
  | nil => rfl
  | cons x rest ih =>
    have hx : x ≠ sep := h x (by simp)
    have hr := ih (fun y hy => h y (by simp [hy]))
    simp only [splitChar]
    rw [if_neg hx, hr]

theorem splitChar_append_of_no_sep (sep : Char) (a b : List Char)
    (ha : ∀ x ∈ a, x ≠ sep) :
    ∀ h t, splitChar sep b = h :: t → splitChar sep (a ++ b) = (a ++ h) :: t := by
  induction a with
  | nil => intro h t hb; simpa using hb
  | cons x a' ih =>
    intro h t hb
    have hx : x ≠ sep := ha x (by simp)
    have hr := ih (fun y hy => ha y (by simp [hy])) h t hb
    show splitChar sep (x :: (a' ++ b)) = (x :: (a' ++ h)) :: t
    simp only [splitChar]
    rw [if_neg hx, hr]

theorem schemaBody_ne_nil (es : List (List Char)) (hne : es ≠ []) :
    ∃ r, schemaBody es = '-' :: r := by
  match es with
  | [] => exact absurd rfl hne
  | [e] => exact ⟨' ' :: e, rfl⟩
  | e :: e' :: es => exact ⟨' ' :: (e ++ ' ' :: schemaBody (e' :: es)), rfl⟩

theorem splitChar_schemaBody (es : List (List Char)) (hne : es ≠ [])
    (hdash : ∀ e ∈ es, ∀ x ∈ e, x ≠ '-') :
    splitChar '-' (schemaBody es) = [] :: schemaPieces es := by
  induction es with
  | nil => exact absurd rfl hne
  | cons e es ih =>
    cases es with
    | nil =>
      show splitChar '-' ('-' :: ' ' :: e) = [[], ' ' :: e]
      rw [show splitChar '-' ('-' :: ' ' :: e) = [] :: splitChar '-' (' ' :: e) from rfl]
      have : splitChar '-' (' ' :: e) = [' ' :: e] := by
        apply splitChar_of_no_sep
        intro x hx
        rcases List.mem_cons.mp hx with h | h
        · rw [h]; decide
        · exact hdash e (by simp) x h
      rw [this]
    | cons e' es' =>
      have ih' := ih (by simp) (fun u hu => hdash u (by simp [List.mem_cons.mp hu]))
      show splitChar '-' ('-' :: ' ' :: (e ++ ' ' :: schemaBody (e' :: es'))) =
        [] :: (' ' :: (e ++ [' '])) :: schemaPieces (e' :: es')
      rw [show splitChar '-' ('-' :: ' ' :: (e ++ ' ' :: schemaBody (e' :: es'))) =
        [] :: splitChar '-' (' ' :: (e ++ ' ' :: schemaBody (e' :: es'))) from rfl]
      have hassoc : ' ' :: (e ++ ' ' :: schemaBody (e' :: es')) =
          (' ' :: (e ++ [' '])) ++ schemaBody (e' :: es') := by simp
      rw [hassoc]
      have hfree : ∀ x ∈ ' ' :: (e ++ [' ']), x ≠ '-' := by
        intro x hx
        rcases List.mem_cons.mp hx with h | h
        · rw [h]; decide
        · rcases List.mem_append.mp h with h2 | h2
          · exact hdash e (by simp) x h2
          · simp only [List.mem_singleton] at h2; rw [h2]; decide
      rw [splitChar_append_of_no_sep '-' _ _ hfree [] (schemaPieces (e' :: es')) ih',
        List.append_nil]

theorem schemaPiece_entry (e : List Char) (pad : List Char)
    (hstr : strip (' ' :: (e ++ pad)) = e) (he2 : e ≠ [])
    (he3 : containsSub (chars "name:") e = true)
    (he4 : containsSub (chars "type:") e = true) :
    (if containsSub (chars "name:") (' ' :: (e ++ pad)) &&
        containsSub (chars "type:") (' ' :: (e ++ pad)) then
      let entry := strip (' ' :: (e ++ pad))
      if entry.isEmpty then none else some entry
    else none) = some e := by
  have hinf : e <:+: ' ' :: (e ++ pad) := ⟨[' '], pad, by simp⟩
  have c1 := containsSub_mono _ _ _ he3 hinf
  have c2 := containsSub_mono _ _ _ he4 hinf
  rw [c1, c2]
  simp only [Bool.and_self, if_true]
  rw [hstr]
  have he2' : e.isEmpty = false := by
    cases e with
    | nil => exact absurd rfl he2
    | cons x xs => rfl
  rw [he2']
  rfl

theorem filterMap_schemaPieces (es : List (List Char))
    (hes : ∀ e ∈ es, strip e = e ∧ e ≠ [] ∧ containsSub (chars "name:") e = true ∧
      containsSub (chars "type:") e = true) :
    (schemaPieces es).filterMap (fun line =>
      if containsSub (chars "name:") line && containsSub (chars "type:") line then
        let entry := strip line
        if entry.isEmpty then none else some entry
      else none) = es := by
  induction es with
  | nil => rfl
  | cons e es ih =>
    obtain ⟨he1, he2, he3, he4⟩ := hes e (by simp)
    cases es with
    | nil =>
      show List.filterMap _ [' ' :: e] = [e]
      have hsome : (if containsSub (chars "name:") (' ' :: e) &&
            containsSub (chars "type:") (' ' :: e) then
          let entry := strip (' ' :: e)
          if entry.isEmpty then none else some entry
        else none) = some e := by
        have h0 : (' ' :: e : List Char) = ' ' :: (e ++ []) := by simp
        rw [h0]
        exact schemaPiece_entry e [] (by rw [List.append_nil, strip_cons_space, he1])
          he2 he3 he4
      rw [List.filterMap_cons, hsome]
      rfl
    | cons e' es' =>
      show List.filterMap _ ((' ' :: (e ++ [' '])) :: schemaPieces (e' :: es')) = e :: e' :: es'
      have hsome := schemaPiece_entry e [' ']
        (by rw [strip_cons_space, strip_append_space, he1]) he2 he3 he4
      rw [List.filterMap_cons, hsome]
      rw [ih (fun u hu => hes u (by simp [hu]))]

theorem schemaEntriesOf_schemaBody (es : List (List Char)) (hne : es ≠ [])
    (hes : ∀ e ∈ es, strip e = e ∧ e ≠ [] ∧ containsSub (chars "name:") e = true ∧
      containsSub (chars "type:") e = true ∧ (∀ x ∈ e, x ≠ '-')) :
    schemaEntriesOf (schemaBody es) = es := by
  unfold schemaEntriesOf
  rw [splitChar_schemaBody es hne (fun e he => (hes e he).2.2.2.2)]
  rw [List.filterMap_cons,
    show (if containsSub (chars "name:") ([] : List Char) &&
        containsSub (chars "type:") ([] : List Char) then
      let entry := strip ([] : List Char)
      if entry.isEmpty then none else some entry
    else none) = none from rfl]
  exact filterMap_schemaPieces es
    (fun e he => ⟨(hes e he).1, (hes e he).2.1, (hes e he).2.2.1, (hes e he).2.2.2.1⟩)

theorem option_some_or {α : Type} (a : α) (o : Option α) : (some a).or o = some a := rfl

theorem getLast_exists_not_space (et : List Char) (hne : et ≠ []) (hstr : strip et = et) :
    ∃ x, et.getLast? = some x ∧ isSpace x = false := by
  obtain ⟨x, hx⟩ : ∃ x, et.getLast? = some x := by
    cases hz : et.getLast? with
    | none => exact absurd (List.getLast?_eq_none_iff.mp hz) hne
    | some z => exact ⟨z, rfl⟩
  exact ⟨x, hx, getLast_not_space_of_strip et x hstr hx⟩

theorem strip_eq_self_of_parts (A B : List Char) (hA : strip A = A) (hAne : A ≠ [])
    (x : Char) (hx : (A ++ B).getLast? = some x) (hxs : isSpace x = false) :
    strip (A ++ B) = A ++ B := by
  obtain ⟨a, A', rfl⟩ : ∃ a A', A = a :: A' := by
    cases A with
    | nil => exact absurd rfl hAne
    | cons a A' => exact ⟨a, A', rfl⟩
  exact strip_eq_self_of_ends _ a x (by simp) (head_not_space_of_strip _ a A' hA rfl) hx hxs

theorem schemaBody_getLast_not_space (es : List (List Char))
    (hes : ∀ e ∈ es, strip e = e ∧ e ≠ []) :
    ∀ x, (schemaBody es).getLast? = some x → isSpace x = false := by
  induction es with
  | nil => intro x hx; simp [schemaBody] at hx
  | cons e es ih =>
    obtain ⟨he1, he2⟩ := hes e (by simp)
    cases es with
    | nil =>
      intro x hx
      obtain ⟨y, hy, hys⟩ := getLast_exists_not_space e he2 he1
      rw [show schemaBody [e] = ['-', ' '] ++ e from rfl, List.getLast?_append, hy,
        option_some_or] at hx
      simp only [Option.some_inj] at hx
      rw [← hx]
      exact hys
    | cons e' es' =>
      intro x hx
      have heq : schemaBody (e :: e' :: es') =
          (('-' :: ' ' :: e) ++ [' ']) ++ schemaBody (e' :: es') := by
        show '-' :: ' ' :: (e ++ ' ' :: schemaBody (e' :: es')) = _
        simp
      obtain ⟨r, hr⟩ := schemaBody_ne_nil (e' :: es') (by simp)
      obtain ⟨z, hz⟩ : ∃ z, (schemaBody (e' :: es')).getLast? = some z := by
        cases hzz : (schemaBody (e' :: es')).getLast? with
        | none =>
          rw [List.getLast?_eq_none_iff] at hzz
          rw [hr] at hzz
          simp at hzz
        | some z => exact ⟨z, rfl⟩
      rw [heq, List.getLast?_append, hz, option_some_or] at hx
      simp only [Option.some_inj] at hx
      exact hx ▸ ih (fun u hu => hes u (by simp [hu])) z hz

theorem parseTimes_wf (stv etv : List Char) (hS : strip stv = stv) (hSne : stv ≠ [])
    (hE : strip etv = etv) (hEne : etv ≠ [])
    (h5 : noEarlyOcc (chars "end_time:") (stv ++ chars " " ++ chars "-" ++ chars " ")
      (chars " " ++ etv)) :
    parseTimes (chars "start_time:" ++ chars " " ++ stv ++ chars " " ++ chars "-" ++
      chars " " ++ chars "end_time:" ++ chars " " ++ etv) = (stv, etv) := by
  obtain ⟨x, hx, hxs⟩ := getLast_exists_not_space etv hEne hE
  have hcon1 : containsSub (chars "start_time:")
      (chars "start_time:" ++ chars " " ++ stv ++ chars " " ++ chars "-" ++ chars " " ++
        chars "end_time:" ++ chars " " ++ etv) = true := by
    rw [containsSub_infix_iff]
    exact ⟨[], chars " " ++ stv ++ chars " " ++ chars "-" ++ chars " " ++
      chars "end_time:" ++ chars " " ++ etv, by simp [List.append_assoc]⟩
  have hsp1 : splitOnFirst (chars "start_time:")
      (chars "start_time:" ++ chars " " ++ stv ++ chars " " ++ chars "-" ++ chars " " ++
        chars "end_time:" ++ chars " " ++ etv) =
      some ([], chars " " ++ stv ++ chars " " ++ chars "-" ++ chars " " ++
        chars "end_time:" ++ chars " " ++ etv) := by
    have heq : chars "start_time:" ++ chars " " ++ stv ++ chars " " ++ chars "-" ++
        chars " " ++ chars "end_time:" ++ chars " " ++ etv =
        chars "start_time:" ++ (chars " " ++ stv ++ chars " " ++ chars "-" ++ chars " " ++
          chars "end_time:" ++ chars " " ++ etv) := by simp [List.append_assoc]
    rw [heq, splitOnFirst_of_isPrefixOf _ _
      (List.isPrefixOf_iff_prefix.mpr (List.prefix_append _ _)), List.drop_left]
  have hstripQ : strip (chars " " ++ stv ++ chars " " ++ chars "-" ++ chars " " ++
      chars "end_time:" ++ chars " " ++ etv) =
      stv ++ chars " " ++ chars "-" ++ chars " " ++ chars "end_time:" ++ chars " " ++ etv := by
    have heq : chars " " ++ stv ++ chars " " ++ chars "-" ++ chars " " ++
        chars "end_time:" ++ chars " " ++ etv =
        ' ' :: (stv ++ chars " " ++ chars "-" ++ chars " " ++ chars "end_time:" ++
          chars " " ++ etv) := by
      simp [show chars " " = [' '] from rfl, List.append_assoc]
    rw [heq, strip_cons_space]
    have heq2 : stv ++ chars " " ++ chars "-" ++ chars " " ++ chars "end_time:" ++
        chars " " ++ etv =
        stv ++ (chars " " ++ chars "-" ++ chars " " ++ chars "end_time:" ++
          chars " " ++ etv) := by simp [List.append_assoc]
    rw [heq2]
    apply strip_eq_self_of_parts stv _ hS hSne x _ hxs
    simp [List.getLast?_append, hx, option_some_or]
  have hcon2 : containsSub (chars "end_time:")
      (stv ++ chars " " ++ chars "-" ++ chars " " ++ chars "end_time:" ++ chars " " ++
        etv) = true := by
    rw [containsSub_infix_iff]
    exact ⟨stv ++ chars " " ++ chars "-" ++ chars " ", chars " " ++ etv,
      by simp [List.append_assoc]⟩
  have hsp2 : splitOnFirst (chars "end_time:")
      (stv ++ chars " " ++ chars "-" ++ chars " " ++ chars "end_time:" ++ chars " " ++
        etv) =
      some (stv ++ chars " " ++ chars "-" ++ chars " ", chars " " ++ etv) := by
    have heq : stv ++ chars " " ++ chars "-" ++ chars " " ++ chars "end_time:" ++
        chars " " ++ etv =
        (stv ++ chars " " ++ chars "-" ++ chars " ") ++ chars "end_time:" ++
          (chars " " ++ etv) := by simp [List.append_assoc]
    rw [heq]
    exact splitOnFirst_of_noEarlyOcc _ _ _ h5
  have hstripA : strip (stv ++ chars " " ++ chars "-" ++ chars " ") =
      stv ++ chars " " ++ chars "-" := by
    rw [show stv ++ chars " " ++ chars "-" ++ chars " " =
      (stv ++ chars " " ++ chars "-") ++ [' '] from rfl, strip_append_space]
    have heq : stv ++ chars " " ++ chars "-" = stv ++ (chars " " ++ chars "-") := by
      simp [List.append_assoc]
    rw [heq]
    apply strip_eq_self_of_parts stv _ hS hSne '-' _ (by decide)
    rw [show stv ++ (chars " " ++ chars "-") = (stv ++ chars " ") ++ ['-'] from by
      simp [show chars " " = [' '] from rfl, show chars "-" = ['-'] from rfl,
        List.append_assoc]]
    exact List.getLast?_concat _
  have hends : endsWithChar '-' (stv ++ chars " " ++ chars "-") = true := by
    unfold endsWithChar
    rw [show stv ++ chars " " ++ chars "-" = (stv ++ chars " ") ++ ['-'] from rfl,
      List.getLast?_concat]
    rfl
  have hdrop : (stv ++ chars " " ++ chars "-").dropLast = stv ++ chars " " := by
    rw [show stv ++ chars " " ++ chars "-" = (stv ++ chars " ") ++ ['-'] from rfl]
    exact List.dropLast_concat
  have hstripS : strip (stv ++ chars " ") = stv := by
    rw [show stv ++ chars " " = stv ++ [' '] from rfl, strip_append_space, hS]
  have hstripE : strip (chars " " ++ etv) = etv := by
    rw [show chars " " ++ etv = ' ' :: etv from rfl, strip_cons_space, hE]
  unfold parseTimes
  rw [if_pos hcon1, hsp1]
  dsimp only
  rw [hstripQ]
  rw [if_pos hcon2, hsp2]
  dsimp only
  rw [hstripA, hends]
  simp only [if_true]
  rw [hdrop, hstripS, hstripE]

theorem parseTableIdPhase_wf (t R : List Char) (hT : strip t = t)
    (htid : containsSub (chars "tableId:") (chars " " ++ t ++ chars " ") = false)
    (h1 : noEarlyOcc (chars "description:") (chars "tableId:" ++ chars " " ++ t ++ chars " ")
      (chars " " ++ R))
    (hR : strip R = R) :
    parseTableIdPhase (chars "tableId:" ++ chars " " ++ t ++ chars " " ++
      chars "description:" ++ chars " " ++ R) = (t, R) := by
  have hcon : containsSub (chars "tableId:")
      (chars "tableId:" ++ chars " " ++ t ++ chars " " ++ chars "description:" ++
        chars " " ++ R) = true := by
    rw [containsSub_infix_iff]
    exact ⟨[], chars " " ++ t ++ chars " " ++ chars "description:" ++ chars " " ++ R,
      by simp [List.append_assoc]⟩
  have hsplit : splitOnFirst (chars "description:")
      (chars "tableId:" ++ chars " " ++ t ++ chars " " ++ chars "description:" ++
        chars " " ++ R) =
      some (chars "tableId:" ++ chars " " ++ t ++ chars " ", chars " " ++ R) := by
    have heq : chars "tableId:" ++ chars " " ++ t ++ chars " " ++ chars "description:" ++
        chars " " ++ R =
        (chars "tableId:" ++ chars " " ++ t ++ chars " ") ++ chars "description:" ++
          (chars " " ++ R) := by simp [List.append_assoc]
    rw [heq]
    exact splitOnFirst_of_noEarlyOcc _ _ _ h1
  unfold parseTableIdPhase
  rw [if_pos hcon, hsplit]
  dsimp only
  have h2 : replaceAll (chars "tableId:") [] (chars "tableId:" ++ chars " " ++ t ++
      chars " ") = chars " " ++ t ++ chars " " := by
    have heq : chars "tableId:" ++ chars " " ++ t ++ chars " " =
        chars "tableId:" ++ (chars " " ++ t ++ chars " ") := by simp [List.append_assoc]
    rw [heq]
    exact replaceAll_prefix_erase _ _ (by decide) htid
  rw [h2]
  have h3 : strip (chars " " ++ t ++ chars " ") = t := by
    rw [show chars " " ++ t ++ chars " " = ' ' :: (t ++ [' ']) from by
      simp [show chars " " = [' '] from rfl, List.append_assoc]]
    rw [strip_cons_space, strip_append_space, hT]
  rw [h3]
  rw [show chars " " ++ R = ' ' :: R from rfl, strip_cons_space, hR]

theorem parseBodyPhase_wf (tid d c sb tr stv etv : List Char) (es : List (List Char))
    (hD : strip d = d) (hDne : d ≠ [])
    (hC : strip c = c) (hCne : c ≠ [])
    (hsbh : ∃ r, sb = '-' :: r)
    (hsb_strip : strip sb = sb)
    (hsb_entries : schemaEntriesOf sb = es)
    (htr : strip tr = tr) (htrne : tr ≠ [])
    (hpt : parseTimes tr = (stv, etv))
    (h2 : noEarlyOcc (chars "category:") (d ++ chars " ")
      (chars " " ++ (c ++ chars " " ++ chars "schema:" ++ chars " " ++ sb ++ chars " " ++
        chars "time_range:" ++ chars " " ++ tr)))
    (h3 : noEarlyOcc (chars "schema:") (c ++ chars " ")
      (chars " " ++ (sb ++ chars " " ++ chars "time_range:" ++ chars " " ++ tr)))
    (h4 : noEarlyOcc (chars "time_range:") (sb ++ chars " ") (chars " " ++ tr)) :
    parseBodyPhase tid (d ++ chars " " ++ chars "category:" ++ chars " " ++ c ++ chars " " ++
      chars "schema:" ++ chars " " ++ sb ++ chars " " ++ chars "time_range:" ++ chars " " ++
      tr) = ⟨tid, d, c, es, stv, etv⟩ := by
  obtain ⟨x, hx, hxs⟩ : ∃ x, tr.getLast? = some x ∧ isSpace x = false := by
    obtain ⟨x0, hx0⟩ : ∃ x0, tr.getLast? = some x0 := by
      cases hz : tr.getLast? with
      | none => exact absurd (List.getLast?_eq_none_iff.mp hz) htrne
      | some z => exact ⟨z, rfl⟩
    exact ⟨x0, hx0, getLast_not_space_of_strip tr x0 htr hx0⟩
  obtain ⟨r, hr⟩ := hsbh
  have hsbne : sb ≠ [] := by rw [hr]; simp
  have hcon1 : containsSub (chars "category:")
      (d ++ chars " " ++ chars "category:" ++ chars " " ++ c ++ chars " " ++
        chars "schema:" ++ chars " " ++ sb ++ chars " " ++ chars "time_range:" ++
        chars " " ++ tr) = true := by
    rw [containsSub_infix_iff]
    exact ⟨d ++ chars " ", chars " " ++ c ++ chars " " ++ chars "schema:" ++ chars " " ++
      sb ++ chars " " ++ chars "time_range:" ++ chars " " ++ tr, by simp [List.append_assoc]⟩
  have hsp1 : splitOnFirst (chars "category:")
      (d ++ chars " " ++ chars "category:" ++ chars " " ++ c ++ chars " " ++
        chars "schema:" ++ chars " " ++ sb ++ chars " " ++ chars "time_range:" ++
        chars " " ++ tr) =
      some (d ++ chars " ", chars " " ++ (c ++ chars " " ++ chars "schema:" ++ chars " " ++
        sb ++ chars " " ++ chars "time_range:" ++ chars " " ++ tr)) := by
    have heq : d ++ chars " " ++ chars "category:" ++ chars " " ++ c ++ chars " " ++
        chars "schema:" ++ chars " " ++ sb ++ chars " " ++ chars "time_range:" ++
        chars " " ++ tr =
        (d ++ chars " ") ++ chars "category:" ++ (chars " " ++ (c ++ chars " " ++
          chars "schema:" ++ chars " " ++ sb ++ chars " " ++ chars "time_range:" ++
          chars " " ++ tr)) := by simp [List.append_assoc]
    rw [heq]
    exact splitOnFirst_of_noEarlyOcc _ _ _ h2
  have hdesc : strip (d ++ chars " ") = d := by
    rw [show d ++ chars " " = d ++ [' '] from rfl, strip_append_space, hD]
  have hcont2 : strip (chars " " ++ (c ++ chars " " ++ chars "schema:" ++ chars " " ++
      sb ++ chars " " ++ chars "time_range:" ++ chars " " ++ tr)) =
      c ++ chars " " ++ chars "schema:" ++ chars " " ++ sb ++ chars " " ++
        chars "time_range:" ++ chars " " ++ tr := by
    rw [show chars " " ++ (c ++ chars " " ++ chars "schema:" ++ chars " " ++ sb ++
      chars " " ++ chars "time_range:" ++ chars " " ++ tr) =
      ' ' :: (c ++ chars " " ++ chars "schema:" ++ chars " " ++ sb ++ chars " " ++
        chars "time_range:" ++ chars " " ++ tr) from rfl, strip_cons_space]
    have heq : c ++ chars " " ++ chars "schema:" ++ chars " " ++ sb ++ chars " " ++
        chars "time_range:" ++ chars " " ++ tr =
        c ++ (chars " " ++ chars "schema:" ++ chars " " ++ sb ++ chars " " ++
          chars "time_range:" ++ chars " " ++ tr) := by simp [List.append_assoc]
    rw [heq]
    apply strip_eq_self_of_parts c _ hC hCne x _ hxs
    simp [List.getLast?_append, hx, option_some_or]
  have hsp2 : splitOnFirst (chars "schema:")
      (c ++ chars " " ++ chars "schema:" ++ chars " " ++ sb ++ chars " " ++
        chars "time_range:" ++ chars " " ++ tr) =
      some (c ++ chars " ", chars " " ++ (sb ++ chars " " ++ chars "time_range:" ++
        chars " " ++ tr)) := by
    have heq : c ++ chars " " ++ chars "schema:" ++ chars " " ++ sb ++ chars " " ++
        chars "time_range:" ++ chars " " ++ tr =
        (c ++ chars " ") ++ chars "schema:" ++ (chars " " ++ (sb ++ chars " " ++
          chars "time_range:" ++ chars " " ++ tr)) := by simp [List.append_assoc]
    rw [heq]
    exact splitOnFirst_of_noEarlyOcc _ _ _ h3
  have hcat : strip (c ++ chars " ") = c := by
    rw [show c ++ chars " " = c ++ [' '] from rfl, strip_append_space, hC]
  have hschc : strip (chars " " ++ (sb ++ chars " " ++ chars "time_range:" ++
      chars " " ++ tr)) =
      sb ++ chars " " ++ chars "time_range:" ++ chars " " ++ tr := by
    rw [show chars " " ++ (sb ++ chars " " ++ chars "time_range:" ++ chars " " ++ tr) =
      ' ' :: (sb ++ chars " " ++ chars "time_range:" ++ chars " " ++ tr) from rfl,
      strip_cons_space]
    have heq : sb ++ chars " " ++ chars "time_range:" ++ chars " " ++ tr =
        sb ++ (chars " " ++ chars "time_range:" ++ chars " " ++ tr) := by
      simp [List.append_assoc]
    rw [heq]
    apply strip_eq_self_of_parts sb _ hsb_strip hsbne x _ hxs
    simp [List.getLast?_append, hx, option_some_or]
  have hcon3 : containsSub (chars "time_range:")
      (sb ++ chars " " ++ chars "time_range:" ++ chars " " ++ tr) = true := by
    rw [containsSub_infix_iff]
    exact ⟨sb ++ chars " ", chars " " ++ tr, by simp [List.append_assoc]⟩
  have hsp3 : splitOnFirst (chars "time_range:")
      (sb ++ chars " " ++ chars "time_range:" ++ chars " " ++ tr) =
      some (sb ++ chars " ", chars " " ++ tr) := by
    have heq : sb ++ chars " " ++ chars "time_range:" ++ chars " " ++ tr =
        (sb ++ chars " ") ++ chars "time_range:" ++ (chars " " ++ tr) := by
      simp [List.append_assoc]
    rw [heq]
    exact splitOnFirst_of_noEarlyOcc _ _ _ h4
  have hentries : schemaEntriesOf (strip (sb ++ chars " ")) = es := by
    rw [show sb ++ chars " " = sb ++ [' '] from rfl, strip_append_space, hsb_strip,
      hsb_entries]
  have htimes : parseTimes (strip (chars " " ++ tr)) = (stv, etv) := by
    rw [show chars " " ++ tr = ' ' :: tr from rfl, strip_cons_space, htr, hpt]
  unfold parseBodyPhase
  rw [if_pos hcon1, hsp1]
  dsimp only
  rw [hdesc, hcont2, hsp2]
  dsimp only
  rw [hcat, hschc, if_pos hcon3, hsp3]
  dsimp only
  rw [hentries, htimes]

/-- C7.  Round trip on well-formed blobs: for every blob containing all
six section markers in order with properly delimited, stripped,
marker-free section values (the `noEarlyOcc` and `containsSub`
hypotheses say exactly that no marker occurs earlier than its intended
position and no tag/trailing-period cleanup applies),
`format_content`'s parse extracts every section value verbatim, and the
re-serialized block is the rendering of exactly those values: tableId,
description, category, each schema entry, start_time and end_time are
all preserved. -/
theorem C7_round_trip (t d c stv etv : List Char) (es : List (List Char))
    (hT : strip t = t)
    (hD : strip d = d) (hDne : d ≠ [])
    (hC : strip c = c) (hCne : c ≠ [])
    (hS : strip stv = stv) (hSne : stv ≠ [])
    (hE : strip etv = etv) (hEne : etv ≠ [])
    (hesne : es ≠ [])
    (hes : ∀ e ∈ es, strip e = e ∧ e ≠ [] ∧ containsSub (chars "name:") e = true ∧
      containsSub (chars "type:") e = true ∧ (∀ x ∈ e, x ≠ '-'))
    (hb1 : containsSub (chars "<b>") (wfBlob t d c es stv etv) = false)
    (hb2 : containsSub (chars "</b>") (wfBlob t d c es stv etv) = false)
    (hb3 : endsWithChar '.' (wfBlob t d c es stv etv) = false)
    (htid : containsSub (chars "tableId:") (chars " " ++ t ++ chars " ") = false)
    (h1 : noEarlyOcc (chars "description:")
      (chars "tableId:" ++ chars " " ++ t ++ chars " ")
      (chars " " ++ (d ++ chars " " ++ chars "category:" ++ chars " " ++ c ++ chars " " ++
        chars "schema:" ++ chars " " ++ schemaBody es ++ chars " " ++
        chars "time_range:" ++ chars " " ++
        (chars "start_time:" ++ chars " " ++ stv ++ chars " " ++ chars "-" ++ chars " " ++
          chars "end_time:" ++ chars " " ++ etv))))
    (h2 : noEarlyOcc (chars "category:") (d ++ chars " ")
      (chars " " ++ (c ++ chars " " ++ chars "schema:" ++ chars " " ++ schemaBody es ++
        chars " " ++ chars "time_range:" ++ chars " " ++
        (chars "start_time:" ++ chars " " ++ stv ++ chars " " ++ chars "-" ++ chars " " ++
          chars "end_time:" ++ chars " " ++ etv))))
    (h3 : noEarlyOcc (chars "schema:") (c ++ chars " ")
      (chars " " ++ (schemaBody es ++ chars " " ++ chars "time_range:" ++ chars " " ++
        (chars "start_time:" ++ chars " " ++ stv ++ chars " " ++ chars "-" ++ chars " " ++
          chars "end_time:" ++ chars " " ++ etv))))
    (h4 : noEarlyOcc (chars "time_range:") (schemaBody es ++ chars " ")
      (chars " " ++ (chars "start_time:" ++ chars " " ++ stv ++ chars " " ++ chars "-" ++
        chars " " ++ chars "end_time:" ++ chars " " ++ etv)))
    (h5 : noEarlyOcc (chars "end_time:") (stv ++ chars " " ++ chars "-" ++ chars " ")
      (chars " " ++ etv)) :
    parseSections (wfBlob t d c es stv etv) = ⟨t, d, c, es, stv, etv⟩ ∧
    formatContent (wfBlob t d c es stv etv) =
      render ⟨t, d, c, es, stv, etv⟩ := by
  obtain ⟨x, hx, hxs⟩ := getLast_exists_not_space etv hEne hE
  obtain ⟨r, hr⟩ := schemaBody_ne_nil es hesne
  have hPT : parseTimes (chars "start_time:" ++ chars " " ++ stv ++ chars " " ++
      chars "-" ++ chars " " ++ chars "end_time:" ++ chars " " ++ etv) = (stv, etv) :=
    parseTimes_wf stv etv hS hSne hE hEne h5
  have hsb_strip : strip (schemaBody es) = schemaBody es := by
    obtain ⟨x2, hx2⟩ : ∃ x2, (schemaBody es).getLast? = some x2 := by
      cases hz : (schemaBody es).getLast? with
      | none =>
        rw [List.getLast?_eq_none_iff] at hz
        rw [hz] at hr
        simp at hr
      | some z => exact ⟨z, rfl⟩
    exact strip_eq_self_of_ends _ '-' x2 (by rw [hr]; rfl) (by decide) hx2
      (schemaBody_getLast_not_space es (fun e he => ⟨(hes e he).1, (hes e he).2.1⟩) x2 hx2)
  have hTRstrip : strip (chars "start_time:" ++ chars " " ++ stv ++ chars " " ++
      chars "-" ++ chars " " ++ chars "end_time:" ++ chars " " ++ etv) =
      chars "start_time:" ++ chars " " ++ stv ++ chars " " ++ chars "-" ++ chars " " ++
        chars "end_time:" ++ chars " " ++ etv := by
    have heq : chars "start_time:" ++ chars " " ++ stv ++ chars " " ++ chars "-" ++
        chars " " ++ chars "end_time:" ++ chars " " ++ etv =
        chars "start_time:" ++ (chars " " ++ stv ++ chars " " ++ chars "-" ++ chars " " ++
          chars "end_time:" ++ chars " " ++ etv) := by simp [List.append_assoc]
    rw [heq]
    apply strip_eq_self_of_parts _ _ (by decide) (by decide) x _ hxs
    simp [List.getLast?_append, hx, option_some_or]
  have hTRne : chars "start_time:" ++ chars " " ++ stv ++ chars " " ++ chars "-" ++
      chars " " ++ chars "end_time:" ++ chars " " ++ etv ≠ [] := by
    intro h0
    have hlen := congrArg List.length h0
    simp only [List.length_append, List.length_nil] at hlen
    rw [show (chars "start_time:").length = 11 from rfl] at hlen
    omega
  have hBODYstrip : strip (d ++ chars " " ++ chars "category:" ++ chars " " ++ c ++
      chars " " ++ chars "schema:" ++ chars " " ++ schemaBody es ++ chars " " ++
      chars "time_range:" ++ chars " " ++
      (chars "start_time:" ++ chars " " ++ stv ++ chars " " ++ chars "-" ++ chars " " ++
        chars "end_time:" ++ chars " " ++ etv)) =
      d ++ chars " " ++ chars "category:" ++ chars " " ++ c ++ chars " " ++
        chars "schema:" ++ chars " " ++ schemaBody es ++ chars " " ++
        chars "time_range:" ++ chars " " ++
        (chars "start_time:" ++ chars " " ++ stv ++ chars " " ++ chars "-" ++ chars " " ++
          chars "end_time:" ++ chars " " ++ etv) := by
    have heq : d ++ chars " " ++ chars "category:" ++ chars " " ++ c ++ chars " " ++
        chars "schema:" ++ chars " " ++ schemaBody es ++ chars " " ++
        chars "time_range:" ++ chars " " ++
        (chars "start_time:" ++ chars " " ++ stv ++ chars " " ++ chars "-" ++ chars " " ++
          chars "end_time:" ++ chars " " ++ etv) =
        d ++ (chars " " ++ chars "category:" ++ chars " " ++ c ++ chars " " ++
          chars "schema:" ++ chars " " ++ schemaBody es ++ chars " " ++
          chars "time_range:" ++ chars " " ++
          (chars "start_time:" ++ chars " " ++ stv ++ chars " " ++ chars "-" ++
            chars " " ++ chars "end_time:" ++ chars " " ++ etv)) := by
      simp [List.append_assoc]
    rw [heq]
    apply strip_eq_self_of_parts d _ hD hDne x _ hxs
    simp [List.getLast?_append, hx, option_some_or]
  have hclean : cleanContent (wfBlob t d c es stv etv) = wfBlob t d c es stv etv := by
    simp only [cleanContent]
    rw [replaceAll_of_not_contains _ _ _ hb1, replaceAll_of_not_contains _ _ _ hb2, hb3]
    simp only [Bool.false_eq_true, if_false]
  have hpt1 : parseTableIdPhase (wfBlob t d c es stv etv) =
      (t, d ++ chars " " ++ chars "category:" ++ chars " " ++ c ++ chars " " ++
        chars "schema:" ++ chars " " ++ schemaBody es ++ chars " " ++
        chars "time_range:" ++ chars " " ++
        (chars "start_time:" ++ chars " " ++ stv ++ chars " " ++ chars "-" ++ chars " " ++
          chars "end_time:" ++ chars " " ++ etv)) := by
    rw [show wfBlob t d c es stv etv =
      chars "tableId:" ++ chars " " ++ t ++ chars " " ++ chars "description:" ++
        chars " " ++
        (d ++ chars " " ++ chars "category:" ++ chars " " ++ c ++ chars " " ++
          chars "schema:" ++ chars " " ++ schemaBody es ++ chars " " ++
          chars "time_range:" ++ chars " " ++
          (chars "start_time:" ++ chars " " ++ stv ++ chars " " ++ chars "-" ++
            chars " " ++ chars "end_time:" ++ chars " " ++ etv)) from by
      simp [wfBlob, List.append_assoc]]
    exact parseTableIdPhase_wf t _ hT htid h1 hBODYstrip
  have hpb : parseBodyPhase t (d ++ chars " " ++ chars "category:" ++ chars " " ++ c ++
      chars " " ++ chars "schema:" ++ chars " " ++ schemaBody es ++ chars " " ++
      chars "time_range:" ++ chars " " ++
      (chars "start_time:" ++ chars " " ++ stv ++ chars " " ++ chars "-" ++ chars " " ++
        chars "end_time:" ++ chars " " ++ etv)) = ⟨t, d, c, es, stv, etv⟩ :=
    parseBodyPhase_wf t d c (schemaBody es) _ stv etv es hD hDne hC hCne ⟨r, hr⟩
      hsb_strip (schemaEntriesOf_schemaBody es hesne hes) hTRstrip hTRne hPT h2 h3 h4
  have hmain : parseSections (wfBlob t d c es stv etv) = ⟨t, d, c, es, stv, etv⟩ := by
    simp only [parseSections]
    rw [hclean, hpt1]
    exact hpb
  refine ⟨hmain, ?_⟩
  show render (parseSections (wfBlob t d c es stv etv)) = render ⟨t, d, c, es, stv, etv⟩
  rw [hmain]

/-- C7 (witness): the round-trip theorem applied to a concrete
well-formed blob, every well-formedness hypothesis checked by
computation. -/
theorem C7_round_trip_witness :
    parseSections (wfBlob (chars "invtbl") (chars "stock levels") (chars "sales")
        [chars "name: qty, type: INTEGER"] (chars "2024/01/01") (chars "2024/12/31")) =
      ⟨chars "invtbl", chars "stock levels", chars "sales",
        [chars "name: qty, type: INTEGER"], chars "2024/01/01", chars "2024/12/31"⟩ ∧
    formatContent (wfBlob (chars "invtbl") (chars "stock levels") (chars "sales")
        [chars "name: qty, type: INTEGER"] (chars "2024/01/01") (chars "2024/12/31")) =
      render ⟨chars "invtbl", chars "stock levels", chars "sales",
        [chars "name: qty, type: INTEGER"], chars "2024/01/01", chars "2024/12/31"⟩ :=
  C7_round_trip (chars "invtbl") (chars "stock levels") (chars "sales")
    (chars "2024/01/01") (chars "2024/12/31") [chars "name: qty, type: INTEGER"]
    (by decide) (by decide) (by decide) (by decide) (by decide) (by decide) (by decide)
    (by decide) (by decide) (by decide) (by decide) (by decide) (by decide) (by decide)
    (by decide) (by decide) (by decide) (by decide) (by decide) (by decide)
